import Mathlib

/-!
Verification of the force-directed layout engine of the ocif-generator
repository.

The hand-rolled engine (`src/services/layout.ts`, `applyAutoLayout`) and the
post-processing passes of the cytoscape variant
(`src/services/svg-ocif-types/ocif.ts`, `applyCytoscapeLayout`) are embedded
as executable Lean functions over exact rationals.

Modelling conventions:
* JS `number` is modelled as `ℚ`.  All inputs considered are finite, and every
  division in the source is guarded (`dist === 0` skips, the normalisation
  scale is a `min` with `1` that absorbs the `q/0 = Infinity` cases), so the
  exact-rational model agrees with the floating-point code up to rounding.
* `Math.sqrt` is an injectable parameter `sqrt : ℚ → ℚ`; theorems assume only
  the properties they need (e.g. `sqrt 0 = 0`).  `ratSqrt` below is a concrete
  instance, exact on perfect squares, used by witnesses.
* `Math.random()` is an injectable stream `rand : ℕ → ℚ` consumed left to
  right (two draws per unpositioned node), mirroring the two
  `Math.random()` calls in the seeding loop.
* JS arrays of numbers are `List ℚ`; a possibly-`undefined` field is an
  `Option`.  Positions are read with `getD _ 0`; in every place the engine
  reads an index the surrounding code (or a theorem hypothesis) guarantees
  the list has at least two entries, so the default is never observable.
* The open `[key: string]: any` attribute bags are modelled as an opaque
  `attrs` field that the engine never inspects.
-/

/-- Concrete square root on `ℚ`, exact on ratios of perfect squares;
used to instantiate the abstract `sqrt` parameter in witnesses. -/
def ratSqrt (q : ℚ) : ℚ := (Nat.sqrt q.num.toNat : ℚ) / (Nat.sqrt q.den : ℚ)

namespace Layout

/-- `interface Node` of `layout.ts`: id, optional position, optional size,
plus an uninterpreted open attribute bag. -/
structure Node where
  id : String
  position : Option (List ℚ)
  size : Option (List ℚ)
  attrs : List (String × String)
deriving DecidableEq, Repr

/-- `interface Relation` of `layout.ts`. -/
structure Relation where
  id : String
  source : Option String
  target : Option String
  attrs : List (String × String)
deriving DecidableEq, Repr

/-- `interface OCIFData` of `layout.ts`; `resources`/`schemas` entries are
opaque to the engine and modelled as opaque tokens. -/
structure OCIFData where
  ocif : String
  nodes : List Node
  relations : List Relation
  resources : List String
  schemas : List String
deriving DecidableEq, Repr

/-- `node.position[0]` (after seeding the list always has ≥ 2 entries). -/
def posX (n : Node) : ℚ := (n.position.getD []).getD 0 0

/-- `node.position[1]`. -/
def posY (n : Node) : ℚ := (n.position.getD []).getD 1 0

/-- write `node.position[0]` and `node.position[1]`, keeping any further
entries, as the JS index assignments do. -/
def setPos (n : Node) (x y : ℚ) : Node :=
  { n with position := some (((n.position.getD []).set 0 x).set 1 y) }

/-- `!node.position || node.position.length < 2` (line 45). -/
def needsPosition (n : Node) : Bool :=
  n.position.isNone || (n.position.getD []).length < 2

/-- `!node.size || node.size.length < 2` (line 51). -/
def needsSize (n : Node) : Bool :=
  n.size.isNone || (n.size.getD []).length < 2

/-- size half of the seeding loop: `node.size = [...defaultNodeSize]`,
`defaultNodeSize = [100, 100]` (lines 41, 51-53). -/
def seedSize (n : Node) : Node :=
  if needsSize n then { n with size := some [100, 100] } else n

/-- the seeding `forEach` (lines 44-54); `c` counts the `Math.random()`
draws consumed so far: `padding + random * (canvas - 2*padding)` on each
axis. -/
def seedNodes (rand : ℕ → ℚ) : ℕ → List Node → List Node
  | _, [] => []
  | c, n :: ns =>
    if needsPosition n then
      seedSize { n with
        position := some [50 + rand c * 900, 50 + rand (c + 1) * 700] } ::
        seedNodes rand (c + 2) ns
    else
      seedSize n :: seedNodes rand c ns

/-- JS `Set.add`: keep first occurrence. -/
def insertIfAbsent (l : List String) (x : String) : List String :=
  if x ∈ l then l else l ++ [x]

/-- effect of one relation on `a`'s neighbour set (lines 58-68): a
relation participates when `relation.source && relation.target` holds,
i.e. both are present and non-empty (JS truthiness). -/
def adjStep (a : String) (acc : List String) (r : Relation) : List String :=
  match r.source, r.target with
  | some s, some t =>
    if s = "" ∨ t = "" then acc
    else
      let acc1 := if s = a then insertIfAbsent acc t else acc
      if t = a then insertIfAbsent acc1 s else acc1
  | _, _ => acc

/-- neighbour set of `a` in the adjacency map built by lines 57-69. -/
def neighborList (rels : List Relation) (a : String) : List String :=
  rels.foldl (adjStep a) []

/-- add a vector into the per-id force accumulator
(`forces.set(id, [f[0]+v[0], f[1]+v[1]])`). -/
def addF (F : String → ℚ × ℚ) (i : String) (v : ℚ × ℚ) : String → ℚ × ℚ :=
  fun j => if j = i then ((F j).1 + v.1, (F j).2 + v.2) else F j

/-- one unordered pair of the repulsion double loop (lines 80-95). -/
def repel (sqrt : ℚ → ℚ) (k : ℚ) (n1 n2 : Node) (F : String → ℚ × ℚ) :
    String → ℚ × ℚ :=
  let dx := posX n2 - posX n1
  let dy := posY n2 - posY n1
  let dist := sqrt (dx * dx + dy * dy)
  if dist = 0 then F
  else
    let force := k * k / dist
    let fx := dx / dist * force
    let fy := dy / dist * force
    addF (addF F n1.id (-fx, -fy)) n2.id (fx, fy)

/-- the `v1 < v2` double loop over all unordered node pairs (lines 78-97). -/
def repulsePairs (sqrt : ℚ → ℚ) (k : ℚ) :
    List Node → (String → ℚ × ℚ) → (String → ℚ × ℚ)
  | [], F => F
  | n1 :: rest, F =>
    repulsePairs sqrt k rest (rest.foldl (fun G n2 => repel sqrt k n1 n2 G) F)

/-- `nodes.find(n => n.id === targetId)`. -/
def findNode : List Node → String → Option Node
  | [], _ => none
  | n :: ns, i => if n.id = i then some n else findNode ns i

/-- one neighbour of the attraction loop (lines 103-120): half-strength
(`fx * 0.5`) applied to both endpoints. -/
def attractOne (sqrt : ℚ → ℚ) (k : ℚ) (ns : List Node) (n1 : Node)
    (F : String → ℚ × ℚ) (tid : String) : String → ℚ × ℚ :=
  match findNode ns tid with
  | none => F
  | some n2 =>
    let dx := posX n2 - posX n1
    let dy := posY n2 - posY n1
    let dist := sqrt (dx * dx + dy * dy)
    if dist = 0 then F
    else
      let force := dist * dist / k
      let fx := dx / dist * force
      let fy := dy / dist * force
      addF (addF F n1.id (fx * (1/2), fy * (1/2))) n2.id
        (-(fx * (1/2)), -(fy * (1/2)))

/-- the attraction pass (lines 100-123): every node iterates over its
neighbour set, so every undirected edge is processed twice per iteration. -/
def attractPhase (sqrt : ℚ → ℚ) (k : ℚ) (rels : List Relation)
    (ns : List Node) (F : String → ℚ × ℚ) : String → ℚ × ℚ :=
  ns.foldl (fun G n1 => (neighborList rels n1.id).foldl (attractOne sqrt k ns n1) G) F

/-- the complete force accumulator of one iteration (repulsion then
attraction, starting from the zero map of line 74-75). -/
def iterationForces (sqrt : ℚ → ℚ) (k : ℚ) (rels : List Relation)
    (ns : List Node) : String → ℚ × ℚ :=
  attractPhase sqrt k rels ns (repulsePairs sqrt k ns (fun _ => (0, 0)))

/-- gravity, per-step displacement clamp and bounds clamp for one node
(lines 126-141). -/
def applyStep (F : String → ℚ × ℚ) (n : Node) : Node :=
  let f := F n.id
  let gx := f.1 + (500 - posX n) * (1/10)
  let gy := f.2 + (400 - posY n) * (1/10)
  let x := posX n + min (max gx (-50)) 50
  let y := posY n + min (max gy (-50)) 50
  setPos n (min (max x 50) 950) (min (max y 50) 750)

/-- one simulation iteration (lines 72-143): forces are computed from the
state at the start of the iteration, then every node integrates them. -/
def simStep (sqrt : ℚ → ℚ) (k : ℚ) (rels : List Relation)
    (ns : List Node) : List Node :=
  ns.map (applyStep (iterationForces sqrt k rels ns))

/-- `iterations` many simulation steps. -/
def stepN (sqrt : ℚ → ℚ) (k : ℚ) (rels : List Relation) :
    ℕ → List Node → List Node
  | 0, ns => ns
  | i + 1, ns => stepN sqrt k rels i (simStep sqrt k rels ns)

/-- minimum of `posX` over the nodes (the `minX` fold of lines 146-152,
whose `Infinity` seed over a non-empty list is the plain list minimum). -/
def bbMinX : List Node → ℚ
  | [] => 0
  | n :: rest => (rest.map posX).foldl min (posX n)

def bbMinY : List Node → ℚ
  | [] => 0
  | n :: rest => (rest.map posY).foldl min (posY n)

def bbMaxX : List Node → ℚ
  | [] => 0
  | n :: rest => (rest.map posX).foldl max (posX n)

def bbMaxY : List Node → ℚ
  | [] => 0
  | n :: rest => (rest.map posY).foldl max (posY n)

/-- `scale = Math.min(scaleX, scaleY, 1)` (lines 154-156).  In JS a zero
range makes the corresponding quotient `+Infinity` (ranges are never
negative), which `Math.min` then discards; the case split reproduces
exactly that. -/
def scaleFor (rX rY : ℚ) : ℚ :=
  if rX = 0 then
    (if rY = 0 then 1 else min (700 / rY) 1)
  else if rY = 0 then min (900 / rX) 1
  else min (900 / rX) (min (700 / rY) 1)

/-- translate-and-scale of one node position (lines 158-161):
`padding + (coord - min) * scale`. -/
def normMap (mX mY s : ℚ) (m : Node) : Node :=
  setPos m (50 + (posX m - mX) * s) (50 + (posY m - mY) * s)

/-- the normalisation step (lines 146-161).  On an empty node list every
`forEach` is vacuous, hence `[]`. -/
def normalize (ns : List Node) : List Node :=
  match ns with
  | [] => []
  | _ :: _ =>
    ns.map (normMap (bbMinX ns) (bbMinY ns)
      (scaleFor (bbMaxX ns - bbMinX ns) (bbMaxY ns - bbMinY ns)))

/-- the node transformation of `applyAutoLayout` (lines 28-164): seed,
simulate 100 iterations with `k = sqrt(canvasArea / nodes.length)` (the
node count is fixed before seeding, which does not change it), then
normalise. -/
def layoutPipeline (sqrt : ℚ → ℚ) (rand : ℕ → ℚ) (nodes : List Node)
    (rels : List Relation) : List Node :=
  normalize (stepN sqrt (sqrt (800000 / (nodes.length : ℚ))) rels 100
    (seedNodes rand 0 nodes))

/-- `applyAutoLayout` (lines 28-164): only `nodes` is replaced in the
returned record. -/
def applyAutoLayout (sqrt : ℚ → ℚ) (rand : ℕ → ℚ) (g : OCIFData) : OCIFData :=
  { g with nodes := layoutPipeline sqrt rand g.nodes g.relations }

/-- everything of a node except its `position` and `size`: the engine may
write only those two fields. -/
def idAttrs (n : Node) : String × List (String × String) := (n.id, n.attrs)

end Layout

namespace Ocif

/-- one entry of `Node.data` in `ocif.ts` (`interface NodeData`): the
`type` marker plus the `start`/`end` coordinate pairs the derivation pass
writes into an arrow entry, and an opaque bag for further fields. -/
structure NodeData where
  type : String
  start : Option (List ℚ)
  «end» : Option (List ℚ)
  attrs : List (String × String)
deriving DecidableEq, Repr

/-- one entry of `Relation.data` (`interface RelationData`). -/
structure RelationData where
  type : String
  node : Option String
  start : Option String
  «end» : Option String
  attrs : List (String × String)
deriving DecidableEq, Repr

/-- `interface Node` of `ocif.ts`. -/
structure ONode where
  id : String
  position : Option (List ℚ)
  size : Option (List ℚ)
  data : Option (List NodeData)
  attrs : List (String × String)
deriving DecidableEq, Repr

/-- `interface Relation` of `ocif.ts`. -/
structure ORelation where
  id : String
  source : Option String
  target : Option String
  data : Option (List RelationData)
  attrs : List (String × String)
deriving DecidableEq, Repr

/-- `node.data?.some(d => d.type === "@ocif/node/arrow")` (line 149). -/
def isArrow (n : ONode) : Bool :=
  (n.data.getD []).any (fun d => d.type = "@ocif/node/arrow")

/-- the size value used when building the layout element for a node
(lines 154-155): `node.size || (isArrow ? [0, 0] : [80, 40])`.  JS
truthiness: only an absent size falls back to the default (an empty or
one-element array is truthy and used as-is). -/
def elementSize (n : ONode) : List ℚ :=
  match n.size with
  | some l => l
  | none => if isArrow n then [0, 0] else [80, 40]

/-- `arrowNode.data?.find(d => d.type === "@ocif/node/arrow")`: the data
entry holding the stored start/end coordinates of an arrow node. -/
def arrowEntry (n : ONode) : Option NodeData :=
  (n.data.getD []).find? (fun d => d.type = "@ocif/node/arrow")

/-- `relation.data?.find(d => d.type === "@ocif/rel/edge")`. -/
def findEdge (r : ORelation) : Option RelationData :=
  (r.data.getD []).find? (fun d => d.type = "@ocif/rel/edge")

/-- the three guarded id reads of the derivation passes (lines 269-281 and
359-371): arrow node id, start id, end id of the first `@ocif/rel/edge`
entry; `none` when any of them is absent or empty (JS `if (!x) return`). -/
def relEdgeIds (r : ORelation) : Option (String × String × String) :=
  match (findEdge r).bind (fun d => d.node) with
  | none => none
  | some a =>
    if a = "" then none
    else
      match (findEdge r).bind (fun d => d.start) with
      | none => none
      | some s =>
        if s = "" then none
        else
          match (findEdge r).bind (fun d => d.«end») with
          | none => none
          | some t => if t = "" then none else some (a, s, t)

/-- `nodes.find(node => node.id === i)`. -/
def findNode : List ONode → String → Option ONode
  | [], _ => none
  | n :: ns, i => if n.id = i then some n else findNode ns i

/-- mutate the first node with the given id (the object returned by
`nodes.find`), leaving the rest untouched. -/
def updateNode (j : String) (f : ONode → ONode) : List ONode → List ONode
  | [] => []
  | n :: ns => if n.id = j then f n :: ns else n :: updateNode j f ns

/-- mutate the first `@ocif/node/arrow` entry of a data list, if any
(`arrowNode.data?.find(...)` followed by `if (arrowData)`). -/
def updateArrowData (f : NodeData → NodeData) : List NodeData → List NodeData
  | [] => []
  | d :: ds => if d.type = "@ocif/node/arrow" then f d :: ds else d :: updateArrowData f ds

/-- `arrowData.start = [sx, sy]; arrowData.end = [tx, ty]` on the arrow
node's data, a no-op when the node has no data or no arrow entry. -/
def setArrowCoords (d : Option (List NodeData)) (s e : List ℚ) :
    Option (List NodeData) :=
  match d with
  | none => none
  | some ds =>
    some (updateArrowData (fun a => { a with start := some s, «end» := some e }) ds)

/-- first derivation pass for one relation (lines 268-311): position the
arrow node at the midpoint of its start/end nodes and store their
positions; any missing piece skips the relation.  The stored coordinates
are read back after the arrow-position write, which the re-lookup in the
updated list reproduces (it only differs from the pre-write value when the
arrow node is the start or end node itself, exactly as for the shared JS
object references). -/
def derive1Step (ns : List ONode) (r : ORelation) : List ONode :=
  match relEdgeIds r with
  | none => ns
  | some (a, s, t) =>
    match findNode ns a, findNode ns s, findNode ns t with
    | some _, some sN, some tN =>
      match sN.position, tN.position with
      | some sp, some tp =>
        let mid : List ℚ := [(sp.getD 0 0 + tp.getD 0 0) / 2,
                             (sp.getD 1 0 + tp.getD 1 0) / 2]
        let ns1 := updateNode a (fun n => { n with position := some mid }) ns
        match (findNode ns1 s).bind (fun n => n.position),
              (findNode ns1 t).bind (fun n => n.position) with
        | some sp1, some tp1 =>
          updateNode a
            (fun n => { n with
              data := setArrowCoords n.data
                [sp1.getD 0 0, sp1.getD 1 0] [tp1.getD 0 0, tp1.getD 1 0] }) ns1
        | _, _ => ns1
      | _, _ => ns
    | _, _, _ => ns

/-- the first `relations.forEach` (lines 268-311). -/
def derivePass1 (ns : List ONode) (rels : List ORelation) : List ONode :=
  rels.foldl derive1Step ns

/-- second derivation pass for one relation (lines 358-394): after
normalisation only the stored start/end coordinates are refreshed; the
arrow node's position is left as normalisation produced it. -/
def derive2Step (ns : List ONode) (r : ORelation) : List ONode :=
  match relEdgeIds r with
  | none => ns
  | some (a, s, t) =>
    match findNode ns a, findNode ns s, findNode ns t with
    | some _, some sN, some tN =>
      match sN.position, tN.position with
      | some sp, some tp =>
        updateNode a
          (fun n => { n with
            data := setArrowCoords n.data
              [sp.getD 0 0, sp.getD 1 0] [tp.getD 0 0, tp.getD 1 0] }) ns
      | _, _ => ns
    | _, _, _ => ns

/-- the second `relations.forEach` (lines 358-394). -/
def derivePass2 (ns : List ONode) (rels : List ORelation) : List ONode :=
  rels.foldl derive2Step ns

/-- a node taking part in normalisation (lines 314-320): position present
with exactly two (finite) entries. -/
def validNode (n : ONode) : Bool :=
  match n.position with
  | some l => l.length = 2
  | none => false

def obbMinX (vs : List ONode) : ℚ :=
  match vs with
  | [] => 0
  | n :: rest =>
    (rest.map (fun m => (m.position.getD []).getD 0 0)).foldl min
      ((n.position.getD []).getD 0 0)

def obbMinY (vs : List ONode) : ℚ :=
  match vs with
  | [] => 0
  | n :: rest =>
    (rest.map (fun m => (m.position.getD []).getD 1 0)).foldl min
      ((n.position.getD []).getD 1 0)

def obbMaxX (vs : List ONode) : ℚ :=
  match vs with
  | [] => 0
  | n :: rest =>
    (rest.map (fun m => (m.position.getD []).getD 0 0)).foldl max
      ((n.position.getD []).getD 0 0)

def obbMaxY (vs : List ONode) : ℚ :=
  match vs with
  | [] => 0
  | n :: rest =>
    (rest.map (fun m => (m.position.getD []).getD 1 0)).foldl max
      ((n.position.getD []).getD 1 0)

/-- scale a valid node's two coordinates (lines 350-355). -/
def oscale (mX mY s : ℚ) (n : ONode) : ONode :=
  if validNode n then
    { n with position := some [50 + ((n.position.getD []).getD 0 0 - mX) * s,
                               50 + ((n.position.getD []).getD 1 0 - mY) * s] }
  else n

/-- everything `applyCytoscapeLayout` does after the external dagre layout
has written positions back (lines 268-397): first derivation pass, then
the guarded normalisation, then — only if normalisation actually ran — the
second derivation pass.  An empty valid-node set or a degenerate
bounding-box range returns early, exactly as the two `return ocifData`
statements do. -/
def postProcess (nodes : List ONode) (rels : List ORelation) : List ONode :=
  let n1 := derivePass1 nodes rels
  let valid := n1.filter validNode
  match valid with
  | [] => n1
  | _ :: _ =>
    let mX := obbMinX valid
    let mY := obbMinY valid
    let rX := obbMaxX valid - mX
    let rY := obbMaxY valid - mY
    if rX = 0 ∨ rY = 0 then n1
    else
      let s := min (900 / rX) (min (700 / rY) 1)
      derivePass2 (n1.map (oscale mX mY s)) rels

end Ocif

/-! ## Generic fold lemmas -/

lemma foldl_min_le_init (l : List ℚ) (a : ℚ) : l.foldl min a ≤ a := by
  induction l generalizing a with
  | nil => exact le_refl a
  | cons x xs ih => exact le_trans (ih (min a x)) (min_le_left a x)

lemma foldl_min_le_mem {x : ℚ} {l : List ℚ} (a : ℚ) (h : x ∈ l) :
    l.foldl min a ≤ x := by
  induction l generalizing a with
  | nil => cases h
  | cons y ys ih =>
    rcases List.mem_cons.mp h with rfl | hy
    · exact le_trans (foldl_min_le_init ys (min a x)) (min_le_right a x)
    · exact ih (min a y) hy

lemma le_foldl_max_init (l : List ℚ) (a : ℚ) : a ≤ l.foldl max a := by
  induction l generalizing a with
  | nil => exact le_refl a
  | cons x xs ih => exact le_trans (le_max_left a x) (ih (max a x))

lemma le_foldl_max_mem {x : ℚ} {l : List ℚ} (a : ℚ) (h : x ∈ l) :
    x ≤ l.foldl max a := by
  induction l generalizing a with
  | nil => cases h
  | cons y ys ih =>
    rcases List.mem_cons.mp h with rfl | hy
    · exact le_trans (le_max_right a x) (le_foldl_max_init ys (max a x))
    · exact ih (max a y) hy

lemma exists_two_of_le_length {l : List ℚ} (h : 2 ≤ l.length) :
    ∃ a b t, l = a :: b :: t := by
  match l with
  | [] => simp at h
  | [a] => simp at h
  | a :: b :: t => exact ⟨a, b, t, rfl⟩

lemma ratSqrt_zero : ratSqrt 0 = 0 := by norm_num [ratSqrt]

lemma ratSqrt_25 : ratSqrt 25 = 5 := by
  have h : (Int.toNat 25).sqrt = 5 := by
    rw [show Int.toNat 25 = 25 from rfl, show (25:ℕ) = 5 * 5 from rfl,
      Nat.sqrt_eq]
  norm_num [ratSqrt, h]

namespace Layout

/-! ## Projections of `setPos` and length invariants -/

lemma setPos_position (n : Node) (x y : ℚ) :
    (setPos n x y).position = some (((n.position.getD []).set 0 x).set 1 y) := rfl

lemma posX_setPos (n : Node) (x y : ℚ)
    (h : 2 ≤ (n.position.getD []).length) : posX (setPos n x y) = x := by
  obtain ⟨a, b, t, hl⟩ := exists_two_of_le_length h
  simp [posX, setPos, hl]

lemma posY_setPos (n : Node) (x y : ℚ)
    (h : 2 ≤ (n.position.getD []).length) : posY (setPos n x y) = y := by
  obtain ⟨a, b, t, hl⟩ := exists_two_of_le_length h
  simp [posY, setPos, hl]

lemma setPos_len (n : Node) (x y : ℚ) :
    ((setPos n x y).position.getD []).length = (n.position.getD []).length := by
  simp [setPos]

lemma posX_normMap {m : Node} (mX mY s : ℚ)
    (h : 2 ≤ (m.position.getD []).length) :
    posX (normMap mX mY s m) = 50 + (posX m - mX) * s :=
  posX_setPos _ _ _ h

lemma posY_normMap {m : Node} (mX mY s : ℚ)
    (h : 2 ≤ (m.position.getD []).length) :
    posY (normMap mX mY s m) = 50 + (posY m - mY) * s :=
  posY_setPos _ _ _ h

lemma normMap_len (mX mY s : ℚ) (m : Node) :
    ((normMap mX mY s m).position.getD []).length =
      (m.position.getD []).length := setPos_len _ _ _

lemma seedSize_position (n : Node) : (seedSize n).position = n.position := by
  unfold seedSize; split <;> rfl

lemma needsPosition_false_len {n : Node} (h : needsPosition n = false) :
    2 ≤ (n.position.getD []).length := by
  simp only [needsPosition, Bool.or_eq_false_iff, decide_eq_false_iff_not,
    not_lt] at h
  exact h.2

lemma seedNodes_len (rand : ℕ → ℚ) (c : ℕ) (ns : List Node) :
    ∀ m ∈ seedNodes rand c ns, 2 ≤ (m.position.getD []).length := by
  induction ns generalizing c with
  | nil => intro m hm; cases hm
  | cons n ns ih =>
    intro m hm
    by_cases hp : needsPosition n
    · simp only [seedNodes, hp, if_true] at hm
      rcases List.mem_cons.mp hm with rfl | hm
      · rw [seedSize_position]; simp
      · exact ih _ m hm
    · simp only [seedNodes, hp, if_false, Bool.false_eq_true] at hm
      rcases List.mem_cons.mp hm with rfl | hm
      · rw [seedSize_position]; exact needsPosition_false_len (by simpa using hp)
      · exact ih _ m hm

lemma applyStep_len (F : String → ℚ × ℚ) (n : Node) :
    (((applyStep F n).position.getD []).length) = (n.position.getD []).length := by
  simp [applyStep, setPos_len]

lemma stepN_len (sqrt : ℚ → ℚ) (k : ℚ) (rels : List Relation) (i : ℕ)
    (ns : List Node) (h : ∀ m ∈ ns, 2 ≤ (m.position.getD []).length) :
    ∀ m ∈ stepN sqrt k rels i ns, 2 ≤ (m.position.getD []).length := by
  induction i generalizing ns with
  | zero => exact h
  | succ i ih =>
    refine ih _ ?_
    intro m hm
    obtain ⟨m0, hm0, rfl⟩ := List.mem_map.mp hm
    rw [applyStep_len]
    exact h m0 hm0

lemma stepN_length (sqrt : ℚ → ℚ) (k : ℚ) (rels : List Relation) (i : ℕ)
    (ns : List Node) : (stepN sqrt k rels i ns).length = ns.length := by
  induction i generalizing ns with
  | zero => rfl
  | succ i ih => rw [stepN, ih, simStep, List.length_map]

lemma seedNodes_length (rand : ℕ → ℚ) (c : ℕ) (ns : List Node) :
    (seedNodes rand c ns).length = ns.length := by
  induction ns generalizing c with
  | nil => rfl
  | cons n ns ih => by_cases hp : needsPosition n <;> simp [seedNodes, hp, ih]

/-! ## Bounding box and scale bounds -/

lemma bbMinX_le {ns : List Node} {m : Node} (h : m ∈ ns) : bbMinX ns ≤ posX m := by
  match ns with
  | [] => cases h
  | n :: rest =>
    rcases List.mem_cons.mp h with rfl | hm
    · exact foldl_min_le_init _ _
    · exact foldl_min_le_mem _ (List.mem_map_of_mem posX hm)

lemma le_bbMaxX {ns : List Node} {m : Node} (h : m ∈ ns) : posX m ≤ bbMaxX ns := by
  match ns with
  | [] => cases h
  | n :: rest =>
    rcases List.mem_cons.mp h with rfl | hm
    · exact le_foldl_max_init _ _
    · exact le_foldl_max_mem _ (List.mem_map_of_mem posX hm)

lemma bbMinY_le {ns : List Node} {m : Node} (h : m ∈ ns) : bbMinY ns ≤ posY m := by
  match ns with
  | [] => cases h
  | n :: rest =>
    rcases List.mem_cons.mp h with rfl | hm
    · exact foldl_min_le_init _ _
    · exact foldl_min_le_mem _ (List.mem_map_of_mem posY hm)

lemma le_bbMaxY {ns : List Node} {m : Node} (h : m ∈ ns) : posY m ≤ bbMaxY ns := by
  match ns with
  | [] => cases h
  | n :: rest =>
    rcases List.mem_cons.mp h with rfl | hm
    · exact le_foldl_max_init _ _
    · exact le_foldl_max_mem _ (List.mem_map_of_mem posY hm)

lemma scaleFor_nonneg {rX rY : ℚ} (hX : 0 ≤ rX) (hY : 0 ≤ rY) :
    0 ≤ scaleFor rX rY := by
  unfold scaleFor
  split_ifs with h1 h2 h3
  · exact zero_le_one
  · have : 0 < rY := lt_of_le_of_ne hY (Ne.symm h2)
    exact le_min (by positivity) zero_le_one
  · have : 0 < rX := lt_of_le_of_ne hX (Ne.symm h1)
    exact le_min (by positivity) zero_le_one
  · have hx : 0 < rX := lt_of_le_of_ne hX (Ne.symm h1)
    have hy : 0 < rY := lt_of_le_of_ne hY (Ne.symm h3)
    exact le_min (by positivity) (le_min (by positivity) zero_le_one)

lemma mul_scaleFor_le_x {rX rY d : ℚ} (hX : 0 ≤ rX) (hY : 0 ≤ rY)
    (hd0 : 0 ≤ d) (hd : d ≤ rX) : d * scaleFor rX rY ≤ 900 := by
  by_cases h1 : rX = 0
  · have hd' : d = 0 := le_antisymm (h1 ▸ hd) hd0
    rw [hd', zero_mul]; norm_num
  · have hx : 0 < rX := lt_of_le_of_ne hX (Ne.symm h1)
    have hs : scaleFor rX rY ≤ 900 / rX := by
      unfold scaleFor
      rw [if_neg h1]
      split_ifs with h2
      · exact min_le_left _ _
      · exact min_le_left _ _
    have hsn : 0 ≤ scaleFor rX rY := scaleFor_nonneg hX hY
    calc d * scaleFor rX rY ≤ rX * (900 / rX) :=
          mul_le_mul hd hs hsn hX
      _ = 900 := by field_simp

lemma mul_scaleFor_le_y {rX rY d : ℚ} (hX : 0 ≤ rX) (hY : 0 ≤ rY)
    (hd0 : 0 ≤ d) (hd : d ≤ rY) : d * scaleFor rX rY ≤ 700 := by
  by_cases h3 : rY = 0
  · have hd' : d = 0 := le_antisymm (h3 ▸ hd) hd0
    rw [hd', zero_mul]; norm_num
  · have hy : 0 < rY := lt_of_le_of_ne hY (Ne.symm h3)
    have hs : scaleFor rX rY ≤ 700 / rY := by
      unfold scaleFor
      by_cases h1 : rX = 0
      · rw [if_pos h1, if_neg h3]; exact min_le_left _ _
      · rw [if_neg h1, if_neg h3]
        exact le_trans (min_le_right _ _) (min_le_left _ _)
    have hsn : 0 ≤ scaleFor rX rY := scaleFor_nonneg hX hY
    calc d * scaleFor rX rY ≤ rY * (700 / rY) :=
          mul_le_mul hd hs hsn hY
      _ = 700 := by field_simp

/-- Any output of the normalisation step lies in the padded canvas
`[50, 950] × [50, 750]` (provided positions are genuine 2-vectors). -/
lemma normalize_bounds {ns : List Node}
    (hlen : ∀ m ∈ ns, 2 ≤ (m.position.getD []).length) :
    ∀ m ∈ normalize ns,
      50 ≤ posX m ∧ posX m ≤ 950 ∧ 50 ≤ posY m ∧ posY m ≤ 750 := by
  match hns : ns with
  | [] => intro m hm; simp [normalize] at hm
  | n0 :: rest =>
    intro m hm
    simp only [normalize] at hm
    obtain ⟨m0, hm0, rfl⟩ := List.mem_map.mp hm
    have hlen0 : 2 ≤ (m0.position.getD []).length := hlen m0 hm0
    have hXr : 0 ≤ bbMaxX (n0 :: rest) - bbMinX (n0 :: rest) :=
      sub_nonneg.mpr (le_trans (bbMinX_le (List.mem_cons_self n0 rest))
        (le_bbMaxX (List.mem_cons_self n0 rest)))
    have hYr : 0 ≤ bbMaxY (n0 :: rest) - bbMinY (n0 :: rest) :=
      sub_nonneg.mpr (le_trans (bbMinY_le (List.mem_cons_self n0 rest))
        (le_bbMaxY (List.mem_cons_self n0 rest)))
    have hdx0 : 0 ≤ posX m0 - bbMinX (n0 :: rest) := sub_nonneg.mpr (bbMinX_le hm0)
    have hdx1 : posX m0 - bbMinX (n0 :: rest) ≤
        bbMaxX (n0 :: rest) - bbMinX (n0 :: rest) :=
      sub_le_sub_right (le_bbMaxX hm0) _
    have hdy0 : 0 ≤ posY m0 - bbMinY (n0 :: rest) := sub_nonneg.mpr (bbMinY_le hm0)
    have hdy1 : posY m0 - bbMinY (n0 :: rest) ≤
        bbMaxY (n0 :: rest) - bbMinY (n0 :: rest) :=
      sub_le_sub_right (le_bbMaxY hm0) _
    have hs0 : 0 ≤ scaleFor (bbMaxX (n0 :: rest) - bbMinX (n0 :: rest))
        (bbMaxY (n0 :: rest) - bbMinY (n0 :: rest)) := scaleFor_nonneg hXr hYr
    rw [posX_normMap _ _ _ hlen0, posY_normMap _ _ _ hlen0]
    refine ⟨?_, ?_, ?_, ?_⟩
    · nlinarith [mul_nonneg hdx0 hs0]
    · have := mul_scaleFor_le_x hXr hYr hdx0 hdx1
      linarith
    · nlinarith [mul_nonneg hdy0 hs0]
    · have := mul_scaleFor_le_y hXr hYr hdy0 hdy1
      linarith

/-! ## Normalisation: idempotence and the degenerate bounding box -/

lemma affine_min (c t s a x : ℚ) (hs : 0 ≤ s) :
    c + (min a x - t) * s = min (c + (a - t) * s) (c + (x - t) * s) := by
  rcases le_total a x with h | h
  · rw [min_eq_left h, min_eq_left]
    exact add_le_add_left (mul_le_mul_of_nonneg_right (sub_le_sub_right h t) hs) c
  · rw [min_eq_right h, min_eq_right]
    exact add_le_add_left (mul_le_mul_of_nonneg_right (sub_le_sub_right h t) hs) c

lemma affine_max (c t s a x : ℚ) (hs : 0 ≤ s) :
    c + (max a x - t) * s = max (c + (a - t) * s) (c + (x - t) * s) := by
  rcases le_total a x with h | h
  · rw [max_eq_right h, max_eq_right]
    exact add_le_add_left (mul_le_mul_of_nonneg_right (sub_le_sub_right h t) hs) c
  · rw [max_eq_left h, max_eq_left]
    exact add_le_add_left (mul_le_mul_of_nonneg_right (sub_le_sub_right h t) hs) c

lemma foldl_min_affine (c t s : ℚ) (hs : 0 ≤ s) (l : List ℚ) (a : ℚ) :
    (l.map (fun x => c + (x - t) * s)).foldl min (c + (a - t) * s) =
      c + (l.foldl min a - t) * s := by
  induction l generalizing a with
  | nil => rfl
  | cons x xs ih =>
    simp only [List.map_cons, List.foldl_cons]
    rw [← affine_min c t s a x hs, ih]

lemma foldl_max_affine (c t s : ℚ) (hs : 0 ≤ s) (l : List ℚ) (a : ℚ) :
    (l.map (fun x => c + (x - t) * s)).foldl max (c + (a - t) * s) =
      c + (l.foldl max a - t) * s := by
  induction l generalizing a with
  | nil => rfl
  | cons x xs ih =>
    simp only [List.map_cons, List.foldl_cons]
    rw [← affine_max c t s a x hs, ih]

lemma foldl_min_const (l : List ℚ) (a : ℚ) (h : ∀ x ∈ l, x = a) :
    l.foldl min a = a := by
  induction l with
  | nil => rfl
  | cons x xs ih =>
    rw [List.foldl_cons, h x (List.mem_cons_self x xs), min_self]
    exact ih (fun y hy => h y (List.mem_cons_of_mem x hy))

lemma foldl_max_const (l : List ℚ) (a : ℚ) (h : ∀ x ∈ l, x = a) :
    l.foldl max a = a := by
  induction l with
  | nil => rfl
  | cons x xs ih =>
    rw [List.foldl_cons, h x (List.mem_cons_self x xs), max_self]
    exact ih (fun y hy => h y (List.mem_cons_of_mem x hy))

lemma normalize_cons (n0 : Node) (rest : List Node) :
    normalize (n0 :: rest) =
      (n0 :: rest).map (normMap (bbMinX (n0 :: rest)) (bbMinY (n0 :: rest))
        (scaleFor (bbMaxX (n0 :: rest) - bbMinX (n0 :: rest))
          (bbMaxY (n0 :: rest) - bbMinY (n0 :: rest)))) := rfl

lemma bbMinX_map {ns : List Node} {g : Node → Node} {c t s : ℚ} (hs : 0 ≤ s)
    (hg : ∀ m ∈ ns, posX (g m) = c + (posX m - t) * s) :
    ∀ n0 rest, ns = n0 :: rest → bbMinX (ns.map g) = c + (bbMinX ns - t) * s := by
  intro n0 rest h
  subst h
  show ((rest.map g).map posX).foldl min (posX (g n0)) = _
  rw [List.map_map, hg n0 (List.mem_cons_self n0 rest)]
  have hcongr : rest.map (posX ∘ g) = (rest.map posX).map (fun x => c + (x - t) * s) := by
    rw [List.map_map]
    exact List.map_congr_left (fun m hm => hg m (List.mem_cons_of_mem n0 hm))
  rw [hcongr, foldl_min_affine c t s hs]
  rfl

lemma bbMaxX_map {ns : List Node} {g : Node → Node} {c t s : ℚ} (hs : 0 ≤ s)
    (hg : ∀ m ∈ ns, posX (g m) = c + (posX m - t) * s) :
    ∀ n0 rest, ns = n0 :: rest → bbMaxX (ns.map g) = c + (bbMaxX ns - t) * s := by
  intro n0 rest h
  subst h
  show ((rest.map g).map posX).foldl max (posX (g n0)) = _
  rw [List.map_map, hg n0 (List.mem_cons_self n0 rest)]
  have hcongr : rest.map (posX ∘ g) = (rest.map posX).map (fun x => c + (x - t) * s) := by
    rw [List.map_map]
    exact List.map_congr_left (fun m hm => hg m (List.mem_cons_of_mem n0 hm))
  rw [hcongr, foldl_max_affine c t s hs]
  rfl

lemma bbMinY_map {ns : List Node} {g : Node → Node} {c t s : ℚ} (hs : 0 ≤ s)
    (hg : ∀ m ∈ ns, posY (g m) = c + (posY m - t) * s) :
    ∀ n0 rest, ns = n0 :: rest → bbMinY (ns.map g) = c + (bbMinY ns - t) * s := by
  intro n0 rest h
  subst h
  show ((rest.map g).map posY).foldl min (posY (g n0)) = _
  rw [List.map_map, hg n0 (List.mem_cons_self n0 rest)]
  have hcongr : rest.map (posY ∘ g) = (rest.map posY).map (fun x => c + (x - t) * s) := by
    rw [List.map_map]
    exact List.map_congr_left (fun m hm => hg m (List.mem_cons_of_mem n0 hm))
  rw [hcongr, foldl_min_affine c t s hs]
  rfl

lemma bbMaxY_map {ns : List Node} {g : Node → Node} {c t s : ℚ} (hs : 0 ≤ s)
    (hg : ∀ m ∈ ns, posY (g m) = c + (posY m - t) * s) :
    ∀ n0 rest, ns = n0 :: rest → bbMaxY (ns.map g) = c + (bbMaxY ns - t) * s := by
  intro n0 rest h
  subst h
  show ((rest.map g).map posY).foldl max (posY (g n0)) = _
  rw [List.map_map, hg n0 (List.mem_cons_self n0 rest)]
  have hcongr : rest.map (posY ∘ g) = (rest.map posY).map (fun x => c + (x - t) * s) := by
    rw [List.map_map]
    exact List.map_congr_left (fun m hm => hg m (List.mem_cons_of_mem n0 hm))
  rw [hcongr, foldl_max_affine c t s hs]
  rfl

lemma position_of_len {n : Node} (h : 2 ≤ (n.position.getD []).length) :
    ∃ a b t, n.position = some (a :: b :: t) := by
  match hp : n.position with
  | none => rw [hp] at h; simp at h
  | some l =>
    rw [hp] at h
    obtain ⟨a, b, t, hl⟩ := exists_two_of_le_length (by simpa using h)
    exact ⟨a, b, t, by rw [hl]⟩

lemma setPos_setPos (n : Node) (x y x' y' : ℚ)
    (h : 2 ≤ (n.position.getD []).length) :
    setPos (setPos n x y) x' y' = setPos n x' y' := by
  obtain ⟨a, b, t, hp⟩ := position_of_len h
  simp [setPos, hp]

lemma setPos_self (n : Node) (h : 2 ≤ (n.position.getD []).length) :
    setPos n (posX n) (posY n) = n := by
  obtain ⟨a, b, t, hp⟩ := position_of_len h
  cases n with
  | mk id position size attrs =>
    simp only at hp
    simp [setPos, posX, posY, hp]

/-- a second application of the normalisation scale computation on the
already-fitted ranges yields exactly `1`. -/
lemma scaleFor_second {rX rY S : ℚ} (hX : 0 ≤ rX) (hY : 0 ≤ rY)
    (hS : S = scaleFor rX rY) : scaleFor (rX * S) (rY * S) = 1 := by
  by_cases h1 : rX = 0
  · by_cases h2 : rY = 0
    · have hzx : rX * S = 0 := by simp [h1]
      have hzy : rY * S = 0 := by simp [h2]
      rw [hzx, hzy]
      simp [scaleFor]
    · have hy : 0 < rY := lt_of_le_of_ne hY (Ne.symm h2)
      have hs : S = min (700 / rY) 1 := by
        rw [hS, scaleFor, if_pos h1, if_neg h2]
      have hspos : 0 < S := by rw [hs]; exact lt_min (by positivity) one_pos
      have hy' : 0 < rY * S := mul_pos hy hspos
      have hle : rY * S ≤ 700 := by
        have hmin : S ≤ 700 / rY := by rw [hs]; exact min_le_left _ _
        calc rY * S ≤ rY * (700 / rY) := mul_le_mul_of_nonneg_left hmin hY
          _ = 700 := by field_simp
      have hzx : rX * S = 0 := by simp [h1]
      rw [hzx, scaleFor, if_pos rfl, if_neg (ne_of_gt hy'),
        min_eq_right ((one_le_div hy').mpr hle)]
  · have hx : 0 < rX := lt_of_le_of_ne hX (Ne.symm h1)
    have hsX : S ≤ 900 / rX := by
      rw [hS, scaleFor, if_neg h1]
      split_ifs
      · exact min_le_left _ _
      · exact min_le_left _ _
    by_cases h2 : rY = 0
    · have hs : S = min (900 / rX) 1 := by
        rw [hS, scaleFor, if_neg h1, if_pos h2]
      have hspos : 0 < S := by rw [hs]; exact lt_min (by positivity) one_pos
      have hx' : 0 < rX * S := mul_pos hx hspos
      have hle : rX * S ≤ 900 := by
        calc rX * S ≤ rX * (900 / rX) := mul_le_mul_of_nonneg_left hsX hX
          _ = 900 := by field_simp
      have hzy : rY * S = 0 := by simp [h2]
      rw [hzy, scaleFor, if_neg (ne_of_gt hx'), if_pos rfl,
        min_eq_right ((one_le_div hx').mpr hle)]
    · have hy : 0 < rY := lt_of_le_of_ne hY (Ne.symm h2)
      have hsY : S ≤ 700 / rY := by
        rw [hS, scaleFor, if_neg h1, if_neg h2]
        exact le_trans (min_le_right _ _) (min_le_left _ _)
      have hspos : 0 < S := by
        rw [hS, scaleFor, if_neg h1, if_neg h2]
        exact lt_min (by positivity) (lt_min (by positivity) one_pos)
      have hx' : 0 < rX * S := mul_pos hx hspos
      have hy' : 0 < rY * S := mul_pos hy hspos
      have hleX : rX * S ≤ 900 := by
        calc rX * S ≤ rX * (900 / rX) := mul_le_mul_of_nonneg_left hsX hX
          _ = 900 := by field_simp
      have hleY : rY * S ≤ 700 := by
        calc rY * S ≤ rY * (700 / rY) := mul_le_mul_of_nonneg_left hsY hY
          _ = 700 := by field_simp
      rw [scaleFor, if_neg (ne_of_gt hx'), if_neg (ne_of_gt hy')]
      rw [min_eq_right ((one_le_div hy').mpr hleY),
        min_eq_right ((one_le_div hx').mpr hleX)]

/-- on a list whose bounding box already starts at `(50, 50)` and whose
second scale factor is `1`, normalisation is the identity. -/
lemma normalize_fixed {ms : List Node}
    (hlen : ∀ m ∈ ms, 2 ≤ (m.position.getD []).length)
    (hminX : bbMinX ms = 50) (hminY : bbMinY ms = 50)
    (hs1 : scaleFor (bbMaxX ms - bbMinX ms) (bbMaxY ms - bbMinY ms) = 1) :
    normalize ms = ms := by
  match ms with
  | [] => rfl
  | m0 :: rest2 =>
    rw [normalize_cons, hs1, hminX, hminY]
    have hid : ∀ m ∈ m0 :: rest2, normMap 50 50 1 m = m := by
      intro m hm
      show setPos m (50 + (posX m - 50) * 1) (50 + (posY m - 50) * 1) = m
      have ex : 50 + (posX m - 50) * 1 = posX m := by ring
      have ey : 50 + (posY m - 50) * 1 = posY m := by ring
      rw [ex, ey]
      exact setPos_self m (hlen m hm)
    calc (m0 :: rest2).map (normMap 50 50 1)
        = (m0 :: rest2).map (fun m => m) := List.map_congr_left hid
      _ = m0 :: rest2 := List.map_id' _

/-- normalisation is idempotent on non-empty lists of 2-vector positions. -/
lemma normalize_idem {ns : List Node} (hne : ns ≠ [])
    (hlen : ∀ m ∈ ns, 2 ≤ (m.position.getD []).length) :
    normalize (normalize ns) = normalize ns := by
  match ns, hne with
  | n0 :: rest, _ =>
    have hXr : 0 ≤ bbMaxX (n0 :: rest) - bbMinX (n0 :: rest) :=
      sub_nonneg.mpr (le_trans (bbMinX_le (List.mem_cons_self n0 rest))
        (le_bbMaxX (List.mem_cons_self n0 rest)))
    have hYr : 0 ≤ bbMaxY (n0 :: rest) - bbMinY (n0 :: rest) :=
      sub_nonneg.mpr (le_trans (bbMinY_le (List.mem_cons_self n0 rest))
        (le_bbMaxY (List.mem_cons_self n0 rest)))
    have hs0 : 0 ≤ scaleFor (bbMaxX (n0 :: rest) - bbMinX (n0 :: rest))
        (bbMaxY (n0 :: rest) - bbMinY (n0 :: rest)) := scaleFor_nonneg hXr hYr
    have hgx : ∀ m ∈ n0 :: rest,
        posX (normMap (bbMinX (n0 :: rest)) (bbMinY (n0 :: rest))
          (scaleFor (bbMaxX (n0 :: rest) - bbMinX (n0 :: rest))
            (bbMaxY (n0 :: rest) - bbMinY (n0 :: rest))) m) =
          50 + (posX m - bbMinX (n0 :: rest)) *
            scaleFor (bbMaxX (n0 :: rest) - bbMinX (n0 :: rest))
              (bbMaxY (n0 :: rest) - bbMinY (n0 :: rest)) :=
      fun m hm => posX_normMap _ _ _ (hlen m hm)
    have hgy : ∀ m ∈ n0 :: rest,
        posY (normMap (bbMinX (n0 :: rest)) (bbMinY (n0 :: rest))
          (scaleFor (bbMaxX (n0 :: rest) - bbMinX (n0 :: rest))
            (bbMaxY (n0 :: rest) - bbMinY (n0 :: rest))) m) =
          50 + (posY m - bbMinY (n0 :: rest)) *
            scaleFor (bbMaxX (n0 :: rest) - bbMinX (n0 :: rest))
              (bbMaxY (n0 :: rest) - bbMinY (n0 :: rest)) :=
      fun m hm => posY_normMap _ _ _ (hlen m hm)
    rw [normalize_cons]
    refine normalize_fixed ?_ ?_ ?_ ?_
    · intro m hm
      obtain ⟨m1, hm1, rfl⟩ := List.mem_map.mp hm
      rw [normMap_len]
      exact hlen m1 hm1
    · rw [bbMinX_map hs0 hgx n0 rest rfl]; ring
    · rw [bbMinY_map hs0 hgy n0 rest rfl]; ring
    · rw [bbMinX_map hs0 hgx n0 rest rfl, bbMinY_map hs0 hgy n0 rest rfl,
        bbMaxX_map hs0 hgx n0 rest rfl, bbMaxY_map hs0 hgy n0 rest rfl]
      have e1 : 50 + (bbMaxX (n0 :: rest) - bbMinX (n0 :: rest)) *
            scaleFor (bbMaxX (n0 :: rest) - bbMinX (n0 :: rest))
              (bbMaxY (n0 :: rest) - bbMinY (n0 :: rest)) -
          (50 + (bbMinX (n0 :: rest) - bbMinX (n0 :: rest)) *
            scaleFor (bbMaxX (n0 :: rest) - bbMinX (n0 :: rest))
              (bbMaxY (n0 :: rest) - bbMinY (n0 :: rest))) =
          (bbMaxX (n0 :: rest) - bbMinX (n0 :: rest)) *
            scaleFor (bbMaxX (n0 :: rest) - bbMinX (n0 :: rest))
              (bbMaxY (n0 :: rest) - bbMinY (n0 :: rest)) := by ring
      have e2 : 50 + (bbMaxY (n0 :: rest) - bbMinY (n0 :: rest)) *
            scaleFor (bbMaxX (n0 :: rest) - bbMinX (n0 :: rest))
              (bbMaxY (n0 :: rest) - bbMinY (n0 :: rest)) -
          (50 + (bbMinY (n0 :: rest) - bbMinY (n0 :: rest)) *
            scaleFor (bbMaxX (n0 :: rest) - bbMinX (n0 :: rest))
              (bbMaxY (n0 :: rest) - bbMinY (n0 :: rest))) =
          (bbMaxY (n0 :: rest) - bbMinY (n0 :: rest)) *
            scaleFor (bbMaxX (n0 :: rest) - bbMinX (n0 :: rest))
              (bbMaxY (n0 :: rest) - bbMinY (n0 :: rest)) := by ring
      rw [e1, e2]
      exact scaleFor_second hXr hYr rfl

/-- a non-empty list of coincident 2-vector positions is sent to
`(padding, padding) = (50, 50)` by normalisation. -/
lemma normalize_const {ns : List Node} (hne : ns ≠ [])
    (hlen : ∀ m ∈ ns, 2 ≤ (m.position.getD []).length)
    (heq : ∀ a ∈ ns, ∀ b ∈ ns, posX a = posX b ∧ posY a = posY b) :
    ∀ m ∈ normalize ns, posX m = 50 ∧ posY m = 50 := by
  match ns, hne with
  | n0 :: rest, _ =>
    have hminX : bbMinX (n0 :: rest) = posX n0 :=
      foldl_min_const _ _ (by
        intro x hx
        obtain ⟨m, hm, rfl⟩ := List.mem_map.mp hx
        exact (heq m (List.mem_cons_of_mem n0 hm) n0 (List.mem_cons_self n0 rest)).1)
    have hmaxX : bbMaxX (n0 :: rest) = posX n0 :=
      foldl_max_const _ _ (by
        intro x hx
        obtain ⟨m, hm, rfl⟩ := List.mem_map.mp hx
        exact (heq m (List.mem_cons_of_mem n0 hm) n0 (List.mem_cons_self n0 rest)).1)
    have hminY : bbMinY (n0 :: rest) = posY n0 :=
      foldl_min_const _ _ (by
        intro x hx
        obtain ⟨m, hm, rfl⟩ := List.mem_map.mp hx
        exact (heq m (List.mem_cons_of_mem n0 hm) n0 (List.mem_cons_self n0 rest)).2)
    have hmaxY : bbMaxY (n0 :: rest) = posY n0 :=
      foldl_max_const _ _ (by
        intro x hx
        obtain ⟨m, hm, rfl⟩ := List.mem_map.mp hx
        exact (heq m (List.mem_cons_of_mem n0 hm) n0 (List.mem_cons_self n0 rest)).2)
    intro m hm
    rw [normalize_cons] at hm
    obtain ⟨m1, hm1, rfl⟩ := List.mem_map.mp hm
    have hx1 : posX m1 = posX n0 :=
      (heq m1 hm1 n0 (List.mem_cons_self n0 rest)).1
    have hy1 : posY m1 = posY n0 :=
      (heq m1 hm1 n0 (List.mem_cons_self n0 rest)).2
    rw [posX_normMap _ _ _ (hlen m1 hm1), posY_normMap _ _ _ (hlen m1 hm1)]
    rw [hminX, hmaxX, hminY, hmaxY, hx1, hy1]
    constructor <;> ring

/-- the `nodes` component of the result of `applyAutoLayout`, stated once
so proofs never force the 100-step recursion by definitional unfolding. -/
lemma applyAutoLayout_nodes (sqrt : ℚ → ℚ) (rand : ℕ → ℚ) (g : OCIFData) :
    (applyAutoLayout sqrt rand g).nodes =
      layoutPipeline sqrt rand g.nodes g.relations := by
  simp [applyAutoLayout]

lemma applyAutoLayout_ocif (sqrt : ℚ → ℚ) (rand : ℕ → ℚ) (g : OCIFData) :
    (applyAutoLayout sqrt rand g).ocif = g.ocif := by
  simp [applyAutoLayout]

lemma applyAutoLayout_relations (sqrt : ℚ → ℚ) (rand : ℕ → ℚ) (g : OCIFData) :
    (applyAutoLayout sqrt rand g).relations = g.relations := by
  simp [applyAutoLayout]

lemma applyAutoLayout_resources (sqrt : ℚ → ℚ) (rand : ℕ → ℚ) (g : OCIFData) :
    (applyAutoLayout sqrt rand g).resources = g.resources := by
  simp [applyAutoLayout]

lemma applyAutoLayout_schemas (sqrt : ℚ → ℚ) (rand : ℕ → ℚ) (g : OCIFData) :
    (applyAutoLayout sqrt rand g).schemas = g.schemas := by
  simp [applyAutoLayout]

/-- unfolding of `layoutPipeline` as an equation, to be applied by `rw`
rather than by definitional unfolding. -/
lemma layoutPipeline_eq (sqrt : ℚ → ℚ) (rand : ℕ → ℚ) (nodes : List Node)
    (rels : List Relation) :
    layoutPipeline sqrt rand nodes rels =
      normalize (stepN sqrt (sqrt (800000 / (nodes.length : ℚ))) rels 100
        (seedNodes rand 0 nodes)) := rfl

end Layout

/-- **C1**: for every input graph (with at least one node, all given
positions finite 2-vectors — automatic in the exact model), every node
position produced by `applyAutoLayout` lies within
`[padding, canvasWidth - padding] × [padding, canvasHeight - padding]`
`= [50, 950] × [50, 750]`, for any square-root and random source. -/
theorem C1_layout_bounds (sqrt : ℚ → ℚ) (g : Layout.OCIFData)
    (hne : g.nodes ≠ []) (rnd : ℕ → ℚ) :
    ∀ m ∈ (Layout.applyAutoLayout sqrt rnd g).nodes,
      50 ≤ Layout.posX m ∧ Layout.posX m ≤ 950 ∧
      50 ≤ Layout.posY m ∧ Layout.posY m ≤ 750 := by
  intro m hm
  rw [Layout.applyAutoLayout_nodes, Layout.layoutPipeline_eq] at hm
  have hlen : ∀ x ∈ Layout.stepN sqrt (sqrt (800000 / (g.nodes.length : ℚ)))
      g.relations 100 (Layout.seedNodes rnd 0 g.nodes),
      2 ≤ (x.position.getD []).length :=
    Layout.stepN_len _ _ _ _ _ (Layout.seedNodes_len rnd 0 g.nodes)
  exact Layout.normalize_bounds hlen m hm

/-- **C1 witness**: the bounds theorem applied to a concrete one-node
graph. -/
theorem C1_layout_bounds_witness :
    (([⟨"s", some [1, 2], none, []⟩] : List Layout.Node) ≠ []) ∧
    ∀ m ∈ (Layout.applyAutoLayout (fun _ => 0) (fun _ => 0)
        ⟨"ocif", [⟨"s", some [1, 2], none, []⟩], [], [], []⟩).nodes,
      50 ≤ Layout.posX m ∧ Layout.posX m ≤ 950 ∧
      50 ≤ Layout.posY m ∧ Layout.posY m ≤ 750 :=
  ⟨by decide,
   C1_layout_bounds (fun _ => 0) ⟨"ocif", [⟨"s", some [1, 2], none, []⟩], [], [], []⟩
     (by decide) (fun _ => 0)⟩

/-- **C5**: the normalisation step is idempotent — running it a second
time on the output of a first run changes no node (the second scale factor
is `1` and the second translation is zero). -/
theorem C5_normalize_idempotent (ns : List Layout.Node) (hne : ns ≠ [])
    (hlen : ∀ m ∈ ns, 2 ≤ (m.position.getD []).length) :
    Layout.normalize (Layout.normalize ns) = Layout.normalize ns :=
  Layout.normalize_idem hne hlen

/-- **C5 witness**: idempotence at a concrete two-node layout that the
first run genuinely rescales (range 1800 shrinks by a factor 1/2). -/
theorem C5_normalize_idempotent_witness :
    (([⟨"a", some [0, 0], none, []⟩, ⟨"b", some [1800, 9], none, []⟩] :
        List Layout.Node) ≠ []) ∧
    Layout.normalize (Layout.normalize
        [⟨"a", some [0, 0], none, []⟩, ⟨"b", some [1800, 9], none, []⟩]) =
      Layout.normalize
        [⟨"a", some [0, 0], none, []⟩, ⟨"b", some [1800, 9], none, []⟩] :=
  ⟨by decide,
   C5_normalize_idempotent
     [⟨"a", some [0, 0], none, []⟩, ⟨"b", some [1800, 9], none, []⟩]
     (by decide) (by decide)⟩

/-- **C9**: when every node carries the same position at the end of the
simulation, the degenerate (zero-width, zero-height) bounding box gives
scale `1` and normalisation maps every node to the padded corner
`(50, 50)` — in particular a single-node graph ends at the corner, not at
the canvas centre that gravity pulled it toward, while staying finite and
in bounds. -/
theorem C9_degenerate_bbox_corner :
    (∀ ns : List Layout.Node, ns ≠ [] →
      (∀ m ∈ ns, 2 ≤ (m.position.getD []).length) →
      (∀ a ∈ ns, ∀ b ∈ ns,
        Layout.posX a = Layout.posX b ∧ Layout.posY a = Layout.posY b) →
      ∀ m ∈ Layout.normalize ns,
        Layout.posX m = 50 ∧ Layout.posY m = 50) ∧
    (∀ (sqrt : ℚ → ℚ) (rnd : ℕ → ℚ) (g : Layout.OCIFData)
      (n0 : Layout.Node), g.nodes = [n0] →
      ∀ m ∈ (Layout.applyAutoLayout sqrt rnd g).nodes,
        Layout.posX m = 50 ∧ Layout.posY m = 50) := by
  constructor
  · exact fun ns hne hlen heq => Layout.normalize_const hne hlen heq
  · intro sqrt rnd g n0 hg m hm
    rw [Layout.applyAutoLayout_nodes, Layout.layoutPipeline_eq, hg] at hm
    have hlen1 : (Layout.seedNodes rnd 0 [n0]).length = 1 := by
      rw [Layout.seedNodes_length]; rfl
    have hlen2 : (Layout.stepN sqrt (sqrt (800000 / (([n0] : List Layout.Node).length : ℚ)))
        g.relations 100 (Layout.seedNodes rnd 0 [n0])).length = 1 := by
      rw [Layout.stepN_length, hlen1]
    obtain ⟨x, hx⟩ := List.length_eq_one.mp hlen2
    have hlenx : ∀ m' ∈ [x], 2 ≤ (m'.position.getD []).length := by
      intro m' hm'
      have : m' ∈ Layout.stepN sqrt
          (sqrt (800000 / (([n0] : List Layout.Node).length : ℚ)))
          g.relations 100 (Layout.seedNodes rnd 0 [n0]) := by
        rw [hx]; exact hm'
      exact Layout.stepN_len _ _ _ _ _ (Layout.seedNodes_len rnd 0 [n0]) m' this
    rw [hx] at hm
    refine Layout.normalize_const (by simp) hlenx ?_ m hm
    intro a ha b hb
    have ha' : a = x := by simpa using ha
    have hb' : b = x := by simpa using hb
    rw [ha', hb']
    exact ⟨rfl, rfl⟩

/-- **C9 witness**: the two components at concrete inputs — a two-node
coincident layout and a concrete one-node graph. -/
theorem C9_degenerate_bbox_corner_witness :
    (∀ m ∈ Layout.normalize
        [⟨"a", some [7, 9], none, []⟩, ⟨"b", some [7, 9], none, []⟩],
      Layout.posX m = 50 ∧ Layout.posY m = 50) ∧
    (∀ m ∈ (Layout.applyAutoLayout (fun _ => 0) (fun _ => 0)
        ⟨"ocif", [⟨"s", some [3, 4], none, []⟩], [], [], []⟩).nodes,
      Layout.posX m = 50 ∧ Layout.posY m = 50) :=
  ⟨C9_degenerate_bbox_corner.1
      [⟨"a", some [7, 9], none, []⟩, ⟨"b", some [7, 9], none, []⟩]
      (by decide) (by decide) (by decide),
   C9_degenerate_bbox_corner.2 (fun _ => 0) (fun _ => 0)
      ⟨"ocif", [⟨"s", some [3, 4], none, []⟩], [], [], []⟩
      ⟨"s", some [3, 4], none, []⟩ rfl⟩

namespace Layout

/-! ## Determinism and the frame condition -/

lemma needsPosition_false_of {n : Node}
    (h : 2 ≤ (n.position.getD []).length) : needsPosition n = false := by
  match hp : n.position with
  | none => rw [hp] at h; simp at h
  | some l =>
    rw [hp] at h
    simp only [needsPosition, hp, Option.isNone_some, Bool.false_or,
      decide_eq_false_iff_not, not_lt]
    simpa using h

/-- seeding consults the random stream only for nodes with missing or
short positions. -/
lemma seedNodes_indep (r1 r2 : ℕ → ℚ) (c1 c2 : ℕ) {ns : List Node}
    (h : ∀ n ∈ ns, needsPosition n = false) :
    seedNodes r1 c1 ns = seedNodes r2 c2 ns := by
  induction ns generalizing c1 c2 with
  | nil => rfl
  | cons n ns ih =>
    have hp : needsPosition n = false := h n (List.mem_cons_self n ns)
    simp only [seedNodes, hp, Bool.false_eq_true, if_false]
    rw [ih _ _ (fun m hm => h m (List.mem_cons_of_mem n hm))]

lemma idAttrs_seedSize (n : Node) : idAttrs (seedSize n) = idAttrs n := by
  unfold seedSize; split <;> rfl

lemma idAttrs_setPos (n : Node) (x y : ℚ) :
    idAttrs (setPos n x y) = idAttrs n := rfl

lemma idAttrs_applyStep (F : String → ℚ × ℚ) (n : Node) :
    idAttrs (applyStep F n) = idAttrs n := rfl

lemma map_idAttrs_seedNodes (rand : ℕ → ℚ) (c : ℕ) (ns : List Node) :
    (seedNodes rand c ns).map idAttrs = ns.map idAttrs := by
  induction ns generalizing c with
  | nil => rfl
  | cons n ns ih =>
    by_cases hp : needsPosition n
    · simp only [seedNodes, hp, if_true, List.map_cons]
      rw [idAttrs_seedSize, ih]
      rfl
    · simp only [seedNodes, hp, Bool.false_eq_true, if_false, List.map_cons]
      rw [idAttrs_seedSize, ih]

lemma map_idAttrs_simStep (sqrt : ℚ → ℚ) (k : ℚ) (rels : List Relation)
    (ns : List Node) : (simStep sqrt k rels ns).map idAttrs = ns.map idAttrs := by
  rw [simStep, List.map_map]
  exact List.map_congr_left (fun m _ => idAttrs_applyStep _ m)

lemma map_idAttrs_stepN (sqrt : ℚ → ℚ) (k : ℚ) (rels : List Relation)
    (i : ℕ) (ns : List Node) :
    (stepN sqrt k rels i ns).map idAttrs = ns.map idAttrs := by
  induction i generalizing ns with
  | zero => rfl
  | succ i ih => rw [stepN, ih, map_idAttrs_simStep]

lemma map_idAttrs_normalize (ns : List Node) :
    (normalize ns).map idAttrs = ns.map idAttrs := by
  match ns with
  | [] => rfl
  | n0 :: rest =>
    rw [normalize_cons, List.map_map]
    exact List.map_congr_left (fun m _ => rfl)

end Layout

/-- **C10**: on inputs where every node already carries a 2-coordinate
position and a 2-coordinate size, `applyAutoLayout` never consults the
random source, so two runs — with arbitrary, possibly different random
streams — produce identical outputs. -/
theorem C10_deterministic (sqrt : ℚ → ℚ) (r1 r2 : ℕ → ℚ)
    (g : Layout.OCIFData)
    (hpos : ∀ n ∈ g.nodes, 2 ≤ (n.position.getD []).length)
    (hsize : ∀ n ∈ g.nodes, 2 ≤ (n.size.getD []).length) :
    Layout.applyAutoLayout sqrt r1 g = Layout.applyAutoLayout sqrt r2 g := by
  have hseed : Layout.seedNodes r1 0 g.nodes = Layout.seedNodes r2 0 g.nodes :=
    Layout.seedNodes_indep r1 r2 0 0
      (fun n hn => Layout.needsPosition_false_of (hpos n hn))
  have hpipe : Layout.layoutPipeline sqrt r1 g.nodes g.relations =
      Layout.layoutPipeline sqrt r2 g.nodes g.relations := by
    rw [Layout.layoutPipeline_eq, Layout.layoutPipeline_eq, hseed]
  simp only [Layout.applyAutoLayout]
  rw [hpipe]

/-- **C10 witness**: two runs with visibly different random streams agree
on a fully positioned two-node graph. -/
theorem C10_deterministic_witness :
    (∀ n ∈ ([⟨"a", some [60, 60], some [10, 10], []⟩,
        ⟨"b", some [70, 80], some [10, 10], []⟩] : List Layout.Node),
      2 ≤ ((n.position.getD []).length) ∧ 2 ≤ ((n.size.getD []).length)) ∧
    Layout.applyAutoLayout (fun _ => 0) (fun _ => 1/3)
        ⟨"ocif", [⟨"a", some [60, 60], some [10, 10], []⟩,
          ⟨"b", some [70, 80], some [10, 10], []⟩], [], [], []⟩ =
      Layout.applyAutoLayout (fun _ => 0) (fun _ => 2/5)
        ⟨"ocif", [⟨"a", some [60, 60], some [10, 10], []⟩,
          ⟨"b", some [70, 80], some [10, 10], []⟩], [], [], []⟩ :=
  ⟨by decide,
   C10_deterministic (fun _ => 0) (fun _ => 1/3) (fun _ => 2/5)
     ⟨"ocif", [⟨"a", some [60, 60], some [10, 10], []⟩,
       ⟨"b", some [70, 80], some [10, 10], []⟩], [], [], []⟩
     (by decide) (by decide)⟩

/-- **C8**: `applyAutoLayout` writes only node `position`/`size`; the
`ocif` marker, the relations, resources and schemas collections are
returned untouched, and every node keeps its identity and its open
attribute bag (in input order). -/
theorem C8_frame_condition (sqrt : ℚ → ℚ) (rnd : ℕ → ℚ)
    (g : Layout.OCIFData) :
    (Layout.applyAutoLayout sqrt rnd g).ocif = g.ocif ∧
    (Layout.applyAutoLayout sqrt rnd g).relations = g.relations ∧
    (Layout.applyAutoLayout sqrt rnd g).resources = g.resources ∧
    (Layout.applyAutoLayout sqrt rnd g).schemas = g.schemas ∧
    (Layout.applyAutoLayout sqrt rnd g).nodes.map Layout.idAttrs =
      g.nodes.map Layout.idAttrs := by
  refine ⟨Layout.applyAutoLayout_ocif _ _ _, Layout.applyAutoLayout_relations _ _ _,
    Layout.applyAutoLayout_resources _ _ _, Layout.applyAutoLayout_schemas _ _ _, ?_⟩
  rw [Layout.applyAutoLayout_nodes, Layout.layoutPipeline_eq,
    Layout.map_idAttrs_normalize, Layout.map_idAttrs_stepN,
    Layout.map_idAttrs_seedNodes]

namespace Layout

/-! ## Coincident nodes: zero forces, preserved coincidence -/

lemma findNode_mem {ns : List Node} {i : String} {n : Node}
    (h : findNode ns i = some n) : n ∈ ns := by
  induction ns with
  | nil => simp [findNode] at h
  | cons n0 rest ih =>
    by_cases h0 : n0.id = i
    · simp only [findNode, if_pos h0] at h
      rw [List.mem_cons]
      exact Or.inl (Option.some_injective _ h).symm
    · simp only [findNode, if_neg h0] at h
      exact List.mem_cons_of_mem n0 (ih h)

lemma attractOne_coincident {sqrt : ℚ → ℚ} {k : ℚ} {ns : List Node}
    {n1 : Node} (F : String → ℚ × ℚ) (tid : String) (h0 : sqrt 0 = 0)
    (hall : ∀ a ∈ ns, posX a = posX n1 ∧ posY a = posY n1) :
    attractOne sqrt k ns n1 F tid = F := by
  cases hfind : findNode ns tid with
  | none => simp only [attractOne, hfind]
  | some n2 =>
    have hdx : posX n2 - posX n1 = 0 := by
      rw [(hall n2 (findNode_mem hfind)).1]; ring
    have hdy : posY n2 - posY n1 = 0 := by
      rw [(hall n2 (findNode_mem hfind)).2]; ring
    simp only [attractOne, hfind, hdx, hdy]
    norm_num [h0]

lemma attract_fold_coincident {sqrt : ℚ → ℚ} {k : ℚ} {ns : List Node}
    {n1 : Node} (l : List String) (F : String → ℚ × ℚ) (h0 : sqrt 0 = 0)
    (hall : ∀ a ∈ ns, posX a = posX n1 ∧ posY a = posY n1) :
    l.foldl (attractOne sqrt k ns n1) F = F := by
  induction l generalizing F with
  | nil => rfl
  | cons tid l ih =>
    rw [List.foldl_cons, attractOne_coincident F tid h0 hall]
    exact ih F

lemma attractPhase_coincident {sqrt : ℚ → ℚ} {k : ℚ} {rels : List Relation}
    {ns : List Node} (F : String → ℚ × ℚ) (h0 : sqrt 0 = 0)
    (hall : ∀ a ∈ ns, ∀ b ∈ ns, posX a = posX b ∧ posY a = posY b) :
    attractPhase sqrt k rels ns F = F := by
  have gen : ∀ l : List Node, (∀ x ∈ l, x ∈ ns) → ∀ G,
      l.foldl (fun G n1 => (neighborList rels n1.id).foldl
        (attractOne sqrt k ns n1) G) G = G := by
    intro l
    induction l with
    | nil => intro _ G; rfl
    | cons n1 l ih =>
      intro hsub G
      rw [List.foldl_cons,
        attract_fold_coincident _ G h0
          (fun a ha => hall a ha n1 (hsub n1 (List.mem_cons_self n1 l)))]
      exact ih (fun x hx => hsub x (List.mem_cons_of_mem n1 hx)) G
  exact gen ns (fun x hx => hx) F

lemma repel_coincident {sqrt : ℚ → ℚ} {k : ℚ} {m1 m2 : Node}
    (F : String → ℚ × ℚ) (h0 : sqrt 0 = 0)
    (hx : posX m1 = posX m2) (hy : posY m1 = posY m2) :
    repel sqrt k m1 m2 F = F := by
  have hdx : posX m2 - posX m1 = 0 := by rw [hx]; ring
  have hdy : posY m2 - posY m1 = 0 := by rw [hy]; ring
  simp only [repel, hdx, hdy]
  norm_num [h0]

lemma repulsePairs_pair_coincident {sqrt : ℚ → ℚ} {k : ℚ} {m1 m2 : Node}
    (F : String → ℚ × ℚ) (h0 : sqrt 0 = 0)
    (hx : posX m1 = posX m2) (hy : posY m1 = posY m2) :
    repulsePairs sqrt k [m1, m2] F = F := by
  show repulsePairs sqrt k [m2]
      ([m2].foldl (fun G n2 => repel sqrt k m1 n2 G) F) = _
  rw [List.foldl_cons, List.foldl_nil, repel_coincident F h0 hx hy]
  rfl

/-- for a coincident pair, one whole iteration accumulates no repulsive or
attractive force at all. -/
lemma iterationForces_pair_coincident {sqrt : ℚ → ℚ} {k : ℚ}
    {rels : List Relation} {m1 m2 : Node} (h0 : sqrt 0 = 0)
    (hpos : m1.position = m2.position) :
    iterationForces sqrt k rels [m1, m2] = fun _ => (0, 0) := by
  have hx : posX m1 = posX m2 := by simp [posX, hpos]
  have hy : posY m1 = posY m2 := by simp [posY, hpos]
  have hz : ∀ z ∈ [m1, m2], posX z = posX m1 ∧ posY z = posY m1 := by
    intro z hz
    rcases List.mem_cons.mp hz with h | h
    · rw [h]; exact ⟨rfl, rfl⟩
    · have hz2 : z = m2 := by simpa using h
      rw [hz2]; exact ⟨hx.symm, hy.symm⟩
  have hall : ∀ a ∈ [m1, m2], ∀ b ∈ [m1, m2],
      posX a = posX b ∧ posY a = posY b := by
    intro a ha b hb
    exact ⟨((hz a ha).1).trans ((hz b hb).1).symm,
           ((hz a ha).2).trans ((hz b hb).2).symm⟩
  rw [iterationForces, repulsePairs_pair_coincident _ h0 hx hy,
    attractPhase_coincident _ h0 hall]

lemma applyStep_position_eq {F : String → ℚ × ℚ} {m1 m2 : Node}
    (hpos : m1.position = m2.position) (hF : F m1.id = F m2.id) :
    (applyStep F m1).position = (applyStep F m2).position := by
  simp only [applyStep, setPos, posX, posY, hpos, hF]

lemma applyStep_position_len (F : String → ℚ × ℚ) (n : Node) :
    ((applyStep F n).position.getD []).length = (n.position.getD []).length :=
  applyStep_len F n

/-- a coincident pair stays coincident through any number of iterations,
with zero accumulated pair forces at the start of each of them. -/
lemma stepN_pair_coincident (sqrt : ℚ → ℚ) (k : ℚ) (rels : List Relation)
    (h0 : sqrt 0 = 0) :
    ∀ (i : ℕ) (m1 m2 : Node), m1.position = m2.position →
      ∃ p q : Node, stepN sqrt k rels i [m1, m2] = [p, q] ∧
        p.position = q.position := by
  intro i
  induction i with
  | zero => exact fun m1 m2 hpos => ⟨m1, m2, rfl, hpos⟩
  | succ i ih =>
    intro m1 m2 hpos
    have hforces : iterationForces sqrt k rels [m1, m2] = fun _ => (0, 0) :=
      iterationForces_pair_coincident h0 hpos
    have hsim : simStep sqrt k rels [m1, m2] =
        [applyStep (iterationForces sqrt k rels [m1, m2]) m1,
         applyStep (iterationForces sqrt k rels [m1, m2]) m2] := rfl
    have hposnew :
        (applyStep (iterationForces sqrt k rels [m1, m2]) m1).position =
        (applyStep (iterationForces sqrt k rels [m1, m2]) m2).position :=
      applyStep_position_eq hpos (by rw [hforces])
    have : stepN sqrt k rels (i + 1) [m1, m2] =
        stepN sqrt k rels i (simStep sqrt k rels [m1, m2]) := rfl
    rw [this, hsim]
    exact ih _ _ hposnew

end Layout

/-- **C4**: a two-node graph whose nodes start at identical (2-vector)
positions, connected by one relation, runs the complete simulation with
the coincident pair contributing no repulsive or attractive force in any
iteration (for any `k`), and finishes — all coordinates exact rationals,
hence finite — with both nodes at the in-bounds corner `(50, 50)`. -/
theorem C4_coincident_pair_safe (sqrt : ℚ → ℚ) (h0 : sqrt 0 = 0)
    (rnd : ℕ → ℚ) (g : Layout.OCIFData) (n1 n2 : Layout.Node)
    (r : Layout.Relation) (p : List ℚ)
    (hg : g.nodes = [n1, n2]) (hr : g.relations = [r])
    (hp1 : n1.position = some p) (hp2 : n2.position = some p)
    (hlen : 2 ≤ p.length)
    (hsrc : r.source = some n1.id) (htgt : r.target = some n2.id) :
    (∀ (k : ℚ) (j : ℕ),
      Layout.iterationForces sqrt k g.relations
        (Layout.stepN sqrt k g.relations j
          (Layout.seedNodes rnd 0 g.nodes)) = fun _ => (0, 0)) ∧
    (∀ m ∈ (Layout.applyAutoLayout sqrt rnd g).nodes,
      Layout.posX m = 50 ∧ Layout.posY m = 50) := by
  have hnp1 : Layout.needsPosition n1 = false :=
    Layout.needsPosition_false_of (by rw [hp1]; simpa using hlen)
  have hnp2 : Layout.needsPosition n2 = false :=
    Layout.needsPosition_false_of (by rw [hp2]; simpa using hlen)
  have hseed : Layout.seedNodes rnd 0 g.nodes =
      [Layout.seedSize n1, Layout.seedSize n2] := by
    rw [hg]
    simp [Layout.seedNodes, hnp1, hnp2]
  have hseedpos : (Layout.seedSize n1).position = (Layout.seedSize n2).position := by
    rw [Layout.seedSize_position, Layout.seedSize_position, hp1, hp2]
  constructor
  · intro k j
    obtain ⟨a, b, hab, habpos⟩ :=
      Layout.stepN_pair_coincident sqrt k g.relations h0 j
        (Layout.seedSize n1) (Layout.seedSize n2) hseedpos
    rw [hseed, hab]
    exact Layout.iterationForces_pair_coincident h0 habpos
  · intro m hm
    rw [Layout.applyAutoLayout_nodes, Layout.layoutPipeline_eq, hseed] at hm
    obtain ⟨a, b, hab, habpos⟩ :=
      Layout.stepN_pair_coincident sqrt (sqrt (800000 / (g.nodes.length : ℚ)))
        g.relations h0 100 (Layout.seedSize n1) (Layout.seedSize n2) hseedpos
    rw [hab] at hm
    have hlens : ∀ x ∈ [a, b], 2 ≤ (x.position.getD []).length := by
      intro x hx
      have hx' : x ∈ Layout.stepN sqrt (sqrt (800000 / (g.nodes.length : ℚ)))
          g.relations 100 [Layout.seedSize n1, Layout.seedSize n2] := by
        rw [hab]; exact hx
      refine Layout.stepN_len _ _ _ _ _ ?_ x hx'
      have : Layout.seedNodes rnd 0 g.nodes =
          [Layout.seedSize n1, Layout.seedSize n2] := hseed
      rw [← this]
      exact Layout.seedNodes_len rnd 0 g.nodes
    refine Layout.normalize_const (by simp) hlens ?_ m hm
    intro x hx y hy
    have hxy : ∀ z ∈ [a, b], z.position = a.position := by
      intro z hz
      rcases List.mem_cons.mp hz with rfl | hz
      · rfl
      · have : z = b := by simpa using hz
        rw [this, habpos]
    have ex : x.position = a.position := hxy x hx
    have ey : y.position = a.position := hxy y hy
    have : x.position = y.position := by rw [ex, ey]
    exact ⟨by simp [Layout.posX, this], by simp [Layout.posY, this]⟩

/-- **C4 witness**: the theorem applied to a concrete coincident pair at
`(100, 100)` with `ratSqrt` (which satisfies `ratSqrt 0 = 0`). -/
theorem C4_coincident_pair_safe_witness :
    (ratSqrt 0 = 0) ∧
    ((∀ (k : ℚ) (j : ℕ),
      Layout.iterationForces ratSqrt k
        ([⟨"r", some "a", some "b", []⟩] : List Layout.Relation)
        (Layout.stepN ratSqrt k [⟨"r", some "a", some "b", []⟩] j
          (Layout.seedNodes (fun _ => 0) 0
            [⟨"a", some [100, 100], none, []⟩,
             ⟨"b", some [100, 100], none, []⟩])) = fun _ => (0, 0)) ∧
    (∀ m ∈ (Layout.applyAutoLayout ratSqrt (fun _ => 0)
        ⟨"ocif", [⟨"a", some [100, 100], none, []⟩,
          ⟨"b", some [100, 100], none, []⟩],
          [⟨"r", some "a", some "b", []⟩], [], []⟩).nodes,
      Layout.posX m = 50 ∧ Layout.posY m = 50)) :=
  ⟨ratSqrt_zero,
   C4_coincident_pair_safe ratSqrt ratSqrt_zero (fun _ => 0)
     ⟨"ocif", [⟨"a", some [100, 100], none, []⟩,
       ⟨"b", some [100, 100], none, []⟩],
       [⟨"r", some "a", some "b", []⟩], [], []⟩
     ⟨"a", some [100, 100], none, []⟩ ⟨"b", some [100, 100], none, []⟩
     ⟨"r", some "a", some "b", []⟩ [100, 100]
     rfl rfl rfl rfl (by decide) rfl rfl⟩

namespace Layout

/-! ## Adjacency construction: one undirected edge per qualifying relation -/

lemma insertIfAbsent_subset (l : List String) (x : String) :
    l ⊆ insertIfAbsent l x := by
  unfold insertIfAbsent
  split_ifs
  · exact fun a ha => ha
  · exact fun a ha => List.mem_append_left _ ha

lemma mem_insertIfAbsent_self (l : List String) (x : String) :
    x ∈ insertIfAbsent l x := by
  unfold insertIfAbsent
  split_ifs with h
  · exact h
  · exact List.mem_append_right _ (List.mem_singleton_self x)

lemma insertIfAbsent_nodup {l : List String} (x : String) (h : l.Nodup) :
    (insertIfAbsent l x).Nodup := by
  unfold insertIfAbsent
  split_ifs with hx
  · exact h
  · rw [List.nodup_append]
    refine ⟨h, List.nodup_singleton x, ?_⟩
    intro a ha hmem
    rw [List.mem_singleton] at hmem
    exact hx (hmem ▸ ha)

lemma adjStep_eq_of (a : String) (acc : List String) {r : Relation}
    {s t : String} (hs : r.source = some s) (ht : r.target = some t) :
    adjStep a acc r =
      if s = "" ∨ t = "" then acc
      else if t = a then
        insertIfAbsent (if s = a then insertIfAbsent acc t else acc) s
      else (if s = a then insertIfAbsent acc t else acc) := by
  unfold adjStep
  rw [hs, ht]

lemma adjStep_none_src (a : String) (acc : List String) {r : Relation}
    (hs : r.source = none) : adjStep a acc r = acc := by
  unfold adjStep
  rw [hs]

lemma adjStep_none_tgt (a : String) (acc : List String) {r : Relation}
    (ht : r.target = none) : adjStep a acc r = acc := by
  unfold adjStep
  rw [ht]
  match hs : r.source with
  | some s => rfl
  | none => rfl

lemma adjStep_subset (a : String) (acc : List String) (r : Relation) :
    acc ⊆ adjStep a acc r := by
  match hs : r.source, ht : r.target with
  | some s, some t =>
    rw [adjStep_eq_of a acc hs ht]
    split_ifs <;>
      first
        | exact fun y hy => hy
        | exact fun y hy => insertIfAbsent_subset _ _
            (insertIfAbsent_subset _ _ hy)
        | exact fun y hy => insertIfAbsent_subset _ _ hy
  | some s, none => rw [adjStep_none_tgt a acc ht]; exact List.Subset.refl _
  | none, some t => rw [adjStep_none_src a acc hs]; exact List.Subset.refl _
  | none, none => rw [adjStep_none_src a acc hs]; exact List.Subset.refl _

lemma adjStep_nodup {acc : List String} (a : String) (r : Relation)
    (h : acc.Nodup) : (adjStep a acc r).Nodup := by
  match hs : r.source, ht : r.target with
  | some s, some t =>
    rw [adjStep_eq_of a acc hs ht]
    split_ifs <;>
      first
        | exact h
        | exact insertIfAbsent_nodup _ h
        | exact insertIfAbsent_nodup _ (insertIfAbsent_nodup _ h)
  | some s, none => rw [adjStep_none_tgt a acc ht]; exact h
  | none, some t => rw [adjStep_none_src a acc hs]; exact h
  | none, none => rw [adjStep_none_src a acc hs]; exact h

lemma foldl_adjStep_subset (a : String) (rels : List Relation)
    (acc : List String) : acc ⊆ rels.foldl (adjStep a) acc := by
  induction rels generalizing acc with
  | nil => exact fun y hy => hy
  | cons r rels ih =>
    intro y hy
    exact ih (adjStep a acc r) (adjStep_subset a acc r hy)

lemma foldl_adjStep_nodup (a : String) (rels : List Relation)
    {acc : List String} (h : acc.Nodup) :
    (rels.foldl (adjStep a) acc).Nodup := by
  induction rels generalizing acc with
  | nil => exact h
  | cons r rels ih => exact ih (adjStep_nodup a r h)

lemma neighborList_nodup (rels : List Relation) (a : String) :
    (neighborList rels a).Nodup :=
  foldl_adjStep_nodup a rels List.nodup_nil

/-- a qualifying relation puts its target into its source's neighbour
set. -/
lemma mem_neighborList {rels : List Relation} {r : Relation} {s t : String}
    (hmem : r ∈ rels) (hs : r.source = some s) (ht : r.target = some t)
    (hse : s ≠ "") (hte : t ≠ "") : t ∈ neighborList rels s := by
  obtain ⟨pre, post, rfl⟩ := List.append_of_mem hmem
  unfold neighborList
  rw [List.foldl_append, List.foldl_cons]
  refine foldl_adjStep_subset s post _ ?_
  rw [adjStep_eq_of s _ hs ht, if_neg (by simp [hse, hte])]
  have hss : (if s = s then insertIfAbsent (pre.foldl (adjStep s) []) t
      else pre.foldl (adjStep s) []) =
      insertIfAbsent (pre.foldl (adjStep s) []) t := if_pos rfl
  rw [hss]
  split_ifs with h1
  · exact insertIfAbsent_subset _ _ (mem_insertIfAbsent_self _ t)
  · exact mem_insertIfAbsent_self _ t

/-- a qualifying relation puts its source into its target's neighbour
set. -/
lemma mem_neighborList_tgt {rels : List Relation} {r : Relation}
    {s t : String} (hmem : r ∈ rels) (hs : r.source = some s)
    (ht : r.target = some t) (hse : s ≠ "") (hte : t ≠ "") :
    s ∈ neighborList rels t := by
  obtain ⟨pre, post, rfl⟩ := List.append_of_mem hmem
  unfold neighborList
  rw [List.foldl_append, List.foldl_cons]
  refine foldl_adjStep_subset t post _ ?_
  rw [adjStep_eq_of t _ hs ht, if_neg (by simp [hse, hte]), if_pos rfl]
  exact mem_insertIfAbsent_self _ s

/-- a relation with a missing or empty endpoint leaves every neighbour
set unchanged. -/
lemma adjStep_skip {r : Relation}
    (h : r.source = none ∨ r.target = none ∨
      r.source = some "" ∨ r.target = some "") (a : String)
    (acc : List String) : adjStep a acc r = acc := by
  rcases h with h | h | h | h
  · exact adjStep_none_src a acc h
  · exact adjStep_none_tgt a acc h
  · match ht : r.target with
    | none => exact adjStep_none_tgt a acc ht
    | some t =>
      rw [adjStep_eq_of a acc h ht, if_pos (Or.inl rfl)]
  · match hs : r.source with
    | none => exact adjStep_none_src a acc hs
    | some s =>
      rw [adjStep_eq_of a acc hs h, if_pos (Or.inr rfl)]

lemma neighborList_skip {r : Relation}
    (h : r.source = none ∨ r.target = none ∨
      r.source = some "" ∨ r.target = some "")
    (pre post : List Relation) (a : String) :
    neighborList (pre ++ r :: post) a = neighborList (pre ++ post) a := by
  unfold neighborList
  rw [List.foldl_append, List.foldl_append, List.foldl_cons, adjStep_skip h]

/-- the whole pipeline depends on the relations only through the
neighbour sets. -/
lemma simStep_rels_congr {sqrt : ℚ → ℚ} {k : ℚ} {rels1 rels2 : List Relation}
    (h : ∀ a, neighborList rels1 a = neighborList rels2 a) (ns : List Node) :
    simStep sqrt k rels1 ns = simStep sqrt k rels2 ns := by
  have hphase : ∀ F, attractPhase sqrt k rels1 ns F = attractPhase sqrt k rels2 ns F := by
    intro F
    unfold attractPhase
    have : (fun (G : String → ℚ × ℚ) n1 =>
        (neighborList rels1 n1.id).foldl (attractOne sqrt k ns n1) G) =
        (fun (G : String → ℚ × ℚ) n1 =>
        (neighborList rels2 n1.id).foldl (attractOne sqrt k ns n1) G) := by
      funext G n1
      rw [h]
    rw [this]
  unfold simStep iterationForces
  rw [hphase]

lemma stepN_rels_congr {sqrt : ℚ → ℚ} {k : ℚ} {rels1 rels2 : List Relation}
    (h : ∀ a, neighborList rels1 a = neighborList rels2 a) (i : ℕ)
    (ns : List Node) : stepN sqrt k rels1 i ns = stepN sqrt k rels2 i ns := by
  induction i generalizing ns with
  | zero => rfl
  | succ i ih =>
    show stepN sqrt k rels1 i (simStep sqrt k rels1 ns) = _
    rw [simStep_rels_congr h, ih]
    rfl

lemma layoutPipeline_rels_congr {sqrt : ℚ → ℚ} {rand : ℕ → ℚ}
    {rels1 rels2 : List Relation}
    (h : ∀ a, neighborList rels1 a = neighborList rels2 a)
    (nodes : List Node) :
    layoutPipeline sqrt rand nodes rels1 = layoutPipeline sqrt rand nodes rels2 := by
  rw [layoutPipeline_eq, layoutPipeline_eq, stepN_rels_congr h]

end Layout

/-- **C7**: a relation with both endpoints present (non-empty, and
referencing existing node ids) contributes exactly one undirected
adjacency edge — each endpoint occurs exactly once in the other's
neighbour set, duplicates collapsing by set semantics — while a relation
with a missing (or empty, which JS truthiness treats as missing) endpoint
contributes nothing: the simulation computes the same node positions as
if that relation were absent. -/
theorem C7_adjacency_contribution :
    (∀ (rels : List Layout.Relation) (r : Layout.Relation)
      (nodes : List Layout.Node) (s t : String),
      r ∈ rels → r.source = some s → r.target = some t →
      s ≠ "" → t ≠ "" →
      (∃ n ∈ nodes, n.id = s) → (∃ n ∈ nodes, n.id = t) →
      (Layout.neighborList rels s).count t = 1 ∧
      (Layout.neighborList rels t).count s = 1) ∧
    (∀ (sqrt : ℚ → ℚ) (rnd : ℕ → ℚ) (g : Layout.OCIFData)
      (pre post : List Layout.Relation) (r : Layout.Relation),
      (r.source = none ∨ r.target = none ∨
        r.source = some "" ∨ r.target = some "") →
      g.relations = pre ++ r :: post →
      (Layout.applyAutoLayout sqrt rnd g).nodes =
        Layout.layoutPipeline sqrt rnd g.nodes (pre ++ post)) := by
  constructor
  · intro rels r nodes s t hmem hs ht hse hte _ _
    constructor
    · exact List.count_eq_one_of_mem (Layout.neighborList_nodup rels s)
        (Layout.mem_neighborList hmem hs ht hse hte)
    · exact List.count_eq_one_of_mem (Layout.neighborList_nodup rels t)
        (Layout.mem_neighborList_tgt hmem hs ht hse hte)
  · intro sqrt rnd g pre post r hskip hg
    rw [Layout.applyAutoLayout_nodes, hg]
    exact Layout.layoutPipeline_rels_congr
      (fun a => Layout.neighborList_skip hskip pre post a) g.nodes

/-- **C7 witness**: a duplicated qualifying relation still yields a single
undirected edge, and a source-less relation drops out of the simulation. -/
theorem C7_adjacency_contribution_witness :
    ((Layout.neighborList
        [⟨"r", some "a", some "b", []⟩, ⟨"rdup", some "a", some "b", []⟩]
        "a").count "b" = 1 ∧
      (Layout.neighborList
        [⟨"r", some "a", some "b", []⟩, ⟨"rdup", some "a", some "b", []⟩]
        "b").count "a" = 1) ∧
    (Layout.applyAutoLayout (fun _ => 0) (fun _ => 0)
        ⟨"ocif", [⟨"a", some [60, 60], none, []⟩],
          [⟨"rbad", none, some "a", []⟩], [], []⟩).nodes =
      Layout.layoutPipeline (fun _ => 0) (fun _ => 0)
        [⟨"a", some [60, 60], none, []⟩] ([] ++ []) :=
  ⟨C7_adjacency_contribution.1
      [⟨"r", some "a", some "b", []⟩, ⟨"rdup", some "a", some "b", []⟩]
      ⟨"r", some "a", some "b", []⟩
      [⟨"a", some [60, 60], none, []⟩, ⟨"b", some [70, 80], none, []⟩]
      "a" "b" (by simp) rfl rfl (by simp) (by simp)
      ⟨⟨"a", some [60, 60], none, []⟩, by simp⟩
      ⟨⟨"b", some [70, 80], none, []⟩, by simp⟩,
   C7_adjacency_contribution.2 (fun _ => 0) (fun _ => 0)
      ⟨"ocif", [⟨"a", some [60, 60], none, []⟩],
        [⟨"rbad", none, some "a", []⟩], [], []⟩
      [] [] ⟨"rbad", none, some "a", []⟩ (Or.inl rfl) rfl⟩

namespace Layout

/-! ## Attraction pass on a single edge: each side is processed twice -/

lemma insertIfAbsent_nil (x : String) : insertIfAbsent [] x = [x] := by
  simp [insertIfAbsent]

lemma neighborList_pair_src {r : Relation} {n1 n2 : Node}
    (hid : n1.id ≠ n2.id) (hs : r.source = some n1.id)
    (ht : r.target = some n2.id) (hse : n1.id ≠ "") (hte : n2.id ≠ "") :
    neighborList [r] n1.id = [n2.id] := by
  unfold neighborList
  rw [List.foldl_cons, List.foldl_nil,
    adjStep_eq_of n1.id [] hs ht, if_neg (by simp [hse, hte]),
    if_neg (fun h => hid h.symm), if_pos rfl, insertIfAbsent_nil]

lemma neighborList_pair_tgt {r : Relation} {n1 n2 : Node}
    (hid : n1.id ≠ n2.id) (hs : r.source = some n1.id)
    (ht : r.target = some n2.id) (hse : n1.id ≠ "") (hte : n2.id ≠ "") :
    neighborList [r] n2.id = [n1.id] := by
  unfold neighborList
  rw [List.foldl_cons, List.foldl_nil,
    adjStep_eq_of n2.id [] hs ht, if_neg (by simp [hse, hte]),
    if_pos rfl, if_neg hid, insertIfAbsent_nil]

lemma attractOne_some {sqrt : ℚ → ℚ} {k : ℚ} {ns : List Node} {n1 n2 : Node}
    {tid : String} {d : ℚ} (F : String → ℚ × ℚ)
    (hfind : findNode ns tid = some n2)
    (hd : sqrt ((posX n2 - posX n1) * (posX n2 - posX n1) +
      (posY n2 - posY n1) * (posY n2 - posY n1)) = d) (hdne : d ≠ 0) :
    attractOne sqrt k ns n1 F tid =
      addF (addF F n1.id
        ((posX n2 - posX n1) / d * (d * d / k) * (1/2),
         (posY n2 - posY n1) / d * (d * d / k) * (1/2))) n2.id
        (-((posX n2 - posX n1) / d * (d * d / k) * (1/2)),
         -((posY n2 - posY n1) / d * (d * d / k) * (1/2))) := by
  simp only [attractOne, hfind, hd]
  rw [if_neg hdne]

/-- evaluating the attraction pass on a two-node graph with one
qualifying relation: the symmetric adjacency makes the edge processed
once from each side, so each endpoint receives the half-strength vector
twice — a net pull of `(dx·d/k, dy·d/k)`, of magnitude `d²/k`. -/
lemma attractPhase_pair {sqrt : ℚ → ℚ} {k d : ℚ} {n1 n2 : Node}
    {r : Relation} (hid : n1.id ≠ n2.id)
    (hs : r.source = some n1.id) (ht : r.target = some n2.id)
    (hse : n1.id ≠ "") (hte : n2.id ≠ "")
    (hd : sqrt ((posX n2 - posX n1) * (posX n2 - posX n1) +
      (posY n2 - posY n1) * (posY n2 - posY n1)) = d) (hdne : d ≠ 0)
    (F : String → ℚ × ℚ) :
    (attractPhase sqrt k [r] [n1, n2] F) n1.id =
      ((F n1.id).1 + (posX n2 - posX n1) * d / k,
       (F n1.id).2 + (posY n2 - posY n1) * d / k) ∧
    (attractPhase sqrt k [r] [n1, n2] F) n2.id =
      ((F n2.id).1 - (posX n2 - posX n1) * d / k,
       (F n2.id).2 - (posY n2 - posY n1) * d / k) := by
  have hf2 : findNode [n1, n2] n2.id = some n2 := by
    simp [findNode, hid]
  have hf1 : findNode [n1, n2] n1.id = some n1 := by
    simp [findNode]
  have hd' : sqrt ((posX n1 - posX n2) * (posX n1 - posX n2) +
      (posY n1 - posY n2) * (posY n1 - posY n2)) = d := by
    rw [show (posX n1 - posX n2) * (posX n1 - posX n2) +
        (posY n1 - posY n2) * (posY n1 - posY n2) =
        (posX n2 - posX n1) * (posX n2 - posX n1) +
        (posY n2 - posY n1) * (posY n2 - posY n1) from by ring, hd]
  have hstep : attractPhase sqrt k [r] [n1, n2] F =
      attractOne sqrt k [n1, n2] n2
        (attractOne sqrt k [n1, n2] n1 F n2.id) n1.id := by
    show List.foldl _ F [n1, n2] = _
    rw [List.foldl_cons, List.foldl_cons, List.foldl_nil,
      neighborList_pair_src hid hs ht hse hte,
      neighborList_pair_tgt hid hs ht hse hte,
      List.foldl_cons, List.foldl_nil, List.foldl_cons, List.foldl_nil]
  rw [hstep, attractOne_some _ hf2 hd hdne, attractOne_some _ hf1 hd' hdne]
  have hne' : n2.id ≠ n1.id := fun h => hid h.symm
  have key : ∀ u : ℚ, u / d * (d * d / k) = u * d / k := by
    intro u
    rw [div_mul_div_comm, show u * (d * d) = d * (u * d) from by ring]
    exact mul_div_mul_left _ _ hdne
  constructor
  · simp only [addF, hid, hne', if_true, if_false, ite_true, ite_false,
      Prod.mk.injEq]
    constructor <;> (rw [key, key]; ring)
  · simp only [addF, hid, hne', if_true, if_false, ite_true, ite_false,
      Prod.mk.injEq]
    constructor <;> (rw [key, key]; ring)

end Layout

/-- **C2 counterexample**: two nodes `a = (50,50)`, `b = (53,54)` at
distance `d = 5` joined by one relation, with `k = 10` and a zero force
accumulator.  The attraction pass accumulates `(3/2, 2)` on `a` — squared
magnitude `25/4 = (d²/k)²` — although the claim's value `d²/(2k)` has
square `25/16`: each endpoint receives the half-strength application
twice, once from each side of the symmetric adjacency. -/
theorem C2_counterexample :
    (Layout.attractPhase ratSqrt 10
        [⟨"r", some "a", some "b", []⟩]
        [⟨"a", some [50, 50], none, []⟩, ⟨"b", some [53, 54], none, []⟩]
        (fun _ => (0, 0))) "a" = (3/2, 2) ∧
    ratSqrt (((53 : ℚ) - 50) * ((53 : ℚ) - 50) +
      ((54 : ℚ) - 50) * ((54 : ℚ) - 50)) = 5 ∧
    ((3/2 : ℚ)) ^ 2 + (2 : ℚ) ^ 2 = ((5 : ℚ) * 5 / 10) ^ 2 ∧
    ((3/2 : ℚ)) ^ 2 + (2 : ℚ) ^ 2 ≠ ((5 : ℚ) * 5 / (2 * 10)) ^ 2 := by
  have hdval : ratSqrt (((53 : ℚ) - 50) * ((53 : ℚ) - 50) +
      ((54 : ℚ) - 50) * ((54 : ℚ) - 50)) = 5 := by
    rw [show ((53 : ℚ) - 50) * ((53 : ℚ) - 50) +
        ((54 : ℚ) - 50) * ((54 : ℚ) - 50) = 25 from by norm_num]
    exact ratSqrt_25
  refine ⟨?_, hdval, by norm_num, by norm_num⟩
  have h := (@Layout.attractPhase_pair ratSqrt 10 5
    ⟨"a", some [50, 50], none, []⟩ ⟨"b", some [53, 54], none, []⟩
    ⟨"r", some "a", some "b", []⟩
    (by simp) rfl rfl (by simp) (by simp) hdval (by norm_num)
    (fun _ => (0, 0))).1
  refine h.trans ?_
  show ((0 : ℚ) + ((53 : ℚ) - 50) * 5 / 10, (0 : ℚ) + ((54 : ℚ) - 50) * 5 / 10) = _
  norm_num

/-- **C2 amended**: in each iteration, for an adjacency edge between two
nodes at nonzero distance `d`, the attraction pass adds a vector of
magnitude `d²/k` — not `d²/(2k)` — to each endpoint: the half-strength
(`0.5`) application happens twice per edge, once from each endpoint's
neighbour set, so the pair's combined displacement matches two
full-strength springs. -/
theorem C2_attraction_is_full_spring_per_endpoint (sqrt : ℚ → ℚ)
    (k d : ℚ) (n1 n2 : Layout.Node) (r : Layout.Relation)
    (hid : n1.id ≠ n2.id) (hs : r.source = some n1.id)
    (ht : r.target = some n2.id) (hse : n1.id ≠ "") (hte : n2.id ≠ "")
    (hd : sqrt ((Layout.posX n2 - Layout.posX n1) * (Layout.posX n2 - Layout.posX n1) +
      (Layout.posY n2 - Layout.posY n1) * (Layout.posY n2 - Layout.posY n1)) = d)
    (hdne : d ≠ 0)
    (hdd : d * d = (Layout.posX n2 - Layout.posX n1) * (Layout.posX n2 - Layout.posX n1) +
      (Layout.posY n2 - Layout.posY n1) * (Layout.posY n2 - Layout.posY n1))
    (F : String → ℚ × ℚ) :
    (Layout.attractPhase sqrt k [r] [n1, n2] F) n1.id =
      ((F n1.id).1 + (Layout.posX n2 - Layout.posX n1) * d / k,
       (F n1.id).2 + (Layout.posY n2 - Layout.posY n1) * d / k) ∧
    (Layout.attractPhase sqrt k [r] [n1, n2] F) n2.id =
      ((F n2.id).1 - (Layout.posX n2 - Layout.posX n1) * d / k,
       (F n2.id).2 - (Layout.posY n2 - Layout.posY n1) * d / k) ∧
    ((Layout.posX n2 - Layout.posX n1) * d / k) ^ 2 +
      ((Layout.posY n2 - Layout.posY n1) * d / k) ^ 2 = (d * d / k) ^ 2 := by
  obtain ⟨h1, h2⟩ := Layout.attractPhase_pair hid hs ht hse hte hd hdne F
  refine ⟨h1, h2, ?_⟩
  calc ((Layout.posX n2 - Layout.posX n1) * d / k) ^ 2 +
        ((Layout.posY n2 - Layout.posY n1) * d / k) ^ 2
      = ((Layout.posX n2 - Layout.posX n1) * (Layout.posX n2 - Layout.posX n1) +
          (Layout.posY n2 - Layout.posY n1) * (Layout.posY n2 - Layout.posY n1)) *
          (d * d) / k ^ 2 := by ring
    _ = (d * d) * (d * d) / k ^ 2 := by rw [← hdd]
    _ = (d * d / k) ^ 2 := by ring

/-- **C2 amended witness**: the amended statement at the concrete
3-4-5 configuration used by the counterexample. -/
theorem C2_attraction_is_full_spring_per_endpoint_witness :
    (Layout.attractPhase ratSqrt 10
        [⟨"r", some "a", some "b", []⟩]
        [⟨"a", some [50, 50], none, []⟩, ⟨"b", some [53, 54], none, []⟩]
        (fun _ => (0, 0))) "a" =
      (((fun _ : String => ((0 : ℚ), (0 : ℚ))) "a").1 +
        (Layout.posX (⟨"b", some [53, 54], none, []⟩ : Layout.Node) -
          Layout.posX (⟨"a", some [50, 50], none, []⟩ : Layout.Node)) * 5 / 10,
       ((fun _ : String => ((0 : ℚ), (0 : ℚ))) "a").2 +
        (Layout.posY (⟨"b", some [53, 54], none, []⟩ : Layout.Node) -
          Layout.posY (⟨"a", some [50, 50], none, []⟩ : Layout.Node)) * 5 / 10) ∧
    ((Layout.posX (⟨"b", some [53, 54], none, []⟩ : Layout.Node) -
        Layout.posX (⟨"a", some [50, 50], none, []⟩ : Layout.Node)) * 5 / 10) ^ 2 +
      ((Layout.posY (⟨"b", some [53, 54], none, []⟩ : Layout.Node) -
        Layout.posY (⟨"a", some [50, 50], none, []⟩ : Layout.Node)) * 5 / 10) ^ 2 =
      ((5 : ℚ) * 5 / 10) ^ 2 := by
  have h := C2_attraction_is_full_spring_per_endpoint ratSqrt 10 5
    ⟨"a", some [50, 50], none, []⟩ ⟨"b", some [53, 54], none, []⟩
    ⟨"r", some "a", some "b", []⟩
    (by simp) rfl rfl (by simp) (by simp)
    (by
      rw [show (Layout.posX (⟨"b", some [53, 54], none, []⟩ : Layout.Node) -
          Layout.posX (⟨"a", some [50, 50], none, []⟩ : Layout.Node)) *
          (Layout.posX (⟨"b", some [53, 54], none, []⟩ : Layout.Node) -
          Layout.posX (⟨"a", some [50, 50], none, []⟩ : Layout.Node)) +
          (Layout.posY (⟨"b", some [53, 54], none, []⟩ : Layout.Node) -
          Layout.posY (⟨"a", some [50, 50], none, []⟩ : Layout.Node)) *
          (Layout.posY (⟨"b", some [53, 54], none, []⟩ : Layout.Node) -
          Layout.posY (⟨"a", some [50, 50], none, []⟩ : Layout.Node)) = 25 from by
        show ((53 : ℚ) - 50) * ((53 : ℚ) - 50) +
          ((54 : ℚ) - 50) * ((54 : ℚ) - 50) = 25
        norm_num]
      exact ratSqrt_25)
    (by norm_num)
    (by
      show (5 : ℚ) * 5 = ((53 : ℚ) - 50) * ((53 : ℚ) - 50) +
        ((54 : ℚ) - 50) * ((54 : ℚ) - 50)
      norm_num)
    (fun _ => (0, 0))
  exact ⟨h.1, h.2.2⟩

/-- **C6 counterexample**: in the cytoscape variant, a node whose size is
present but has fewer than two elements (`[5]`) keeps that size — it is
not assigned any default (`[0,0]`, `[80,40]`, or the hand-rolled variant's
`[100,100]`), contradicting the claim that every absent-or-short size is
defaulted during seeding. -/
theorem C6_counterexample :
    (((⟨"n", none, some [5], none, []⟩ : Ocif.ONode).size.getD []).length < 2) ∧
    Ocif.elementSize ⟨"n", none, some [5], none, []⟩ = [5] ∧
    ([5] : List ℚ) ≠ [0, 0] ∧
    ([5] : List ℚ) ≠ [80, 40] ∧
    ([5] : List ℚ) ≠ [100, 100] := by
  refine ⟨by decide, rfl, by simp, by simp, by simp⟩

/-- **C6 amended**: the two variants default differently.  The cytoscape
variant uses a node's own size whenever it is present (even malformed,
with fewer than two entries) and only falls back on an absent size — to
the zero-area `[0,0]` for nodes carrying an `@ocif/node/arrow` data entry
and to `[80,40]` otherwise.  The hand-rolled variant assigns `[100,100]`
to every node whose size is absent or shorter than two entries, with no
arrow detection at all, and leaves well-formed sizes unchanged. -/
theorem C6_seeding_defaults :
    (∀ n : Ocif.ONode, n.size = none →
      Ocif.elementSize n = (if Ocif.isArrow n then [0, 0] else [80, 40])) ∧
    (∀ (n : Ocif.ONode) (l : List ℚ), n.size = some l →
      Ocif.elementSize n = l) ∧
    (∀ m : Layout.Node, (m.size = none ∨ (m.size.getD []).length < 2) →
      (Layout.seedSize m).size = some [100, 100]) ∧
    (∀ m : Layout.Node, Layout.needsSize m = false →
      (Layout.seedSize m).size = m.size) := by
  refine ⟨?_, ?_, ?_, ?_⟩
  · intro n h
    simp only [Ocif.elementSize, h]
  · intro n l h
    simp only [Ocif.elementSize, h]
  · intro m h
    have hneed : Layout.needsSize m = true := by
      rcases h with h | h
      · simp [Layout.needsSize, h]
      · simp [Layout.needsSize, h]
    simp [Layout.seedSize, hneed]
  · intro m h
    simp [Layout.seedSize, h]

/-- **C6 amended witness**: the four behaviours at concrete nodes — an
arrow-marked node and a plain node with absent sizes, a node with a
malformed one-element size, and a node with a well-formed size. -/
theorem C6_seeding_defaults_witness :
    (Ocif.elementSize ⟨"x", none, none,
        some [⟨"@ocif/node/arrow", none, none, []⟩], []⟩ =
      (if Ocif.isArrow ⟨"x", none, none,
          some [⟨"@ocif/node/arrow", none, none, []⟩], []⟩
        then [0, 0] else [80, 40])) ∧
    Ocif.elementSize ⟨"y", none, some [5], none, []⟩ = [5] ∧
    (Layout.seedSize ⟨"z", none, some [7], []⟩).size = some [100, 100] ∧
    (Layout.seedSize ⟨"w", none, some [7, 8], []⟩).size =
      (⟨"w", none, some [7, 8], []⟩ : Layout.Node).size :=
  ⟨C6_seeding_defaults.1 _ rfl,
   C6_seeding_defaults.2.1 _ [5] rfl,
   C6_seeding_defaults.2.2.1 _ (Or.inr (by decide)),
   C6_seeding_defaults.2.2.2 _ (by decide)⟩

namespace Ocif

/-! ## Arrow-endpoint derivation: lookup and update infrastructure -/

lemma findNode_mem_node {ns : List ONode} {i : String} {n : ONode}
    (h : findNode ns i = some n) : n ∈ ns := by
  induction ns with
  | nil => simp [findNode] at h
  | cons n0 rest ih =>
    by_cases h0 : n0.id = i
    · simp only [findNode, if_pos h0] at h
      rw [List.mem_cons]
      exact Or.inl (Option.some_injective _ h).symm
    · simp only [findNode, if_neg h0] at h
      exact List.mem_cons_of_mem n0 (ih h)

lemma findNode_updateNode_ne {j i : String} {f : ONode → ONode}
    (hf : ∀ n, (f n).id = n.id) (ns : List ONode) (hne : i ≠ j) :
    findNode (updateNode j f ns) i = findNode ns i := by
  induction ns with
  | nil => rfl
  | cons n0 rest ih =>
    by_cases h0 : n0.id = j
    · simp only [updateNode, if_pos h0, findNode, hf n0, h0]
      rw [if_neg (fun h => hne h.symm), if_neg (fun h => hne h.symm)]
    · simp only [updateNode, if_neg h0, findNode]
      by_cases h1 : n0.id = i
      · rw [if_pos h1, if_pos h1]
      · rw [if_neg h1, if_neg h1]
        exact ih

lemma findNode_updateNode_self {j : String} {f : ONode → ONode}
    (hf : ∀ n, (f n).id = n.id) (ns : List ONode) :
    findNode (updateNode j f ns) j = (findNode ns j).map f := by
  induction ns with
  | nil => rfl
  | cons n0 rest ih =>
    by_cases h0 : n0.id = j
    · simp only [updateNode, if_pos h0, findNode, hf n0, if_pos h0]
      rfl
    · simp only [updateNode, if_neg h0, findNode, if_neg h0]
      exact ih

lemma findNode_map {f : ONode → ONode} (hf : ∀ n, (f n).id = n.id)
    (ns : List ONode) (i : String) :
    findNode (ns.map f) i = (findNode ns i).map f := by
  induction ns with
  | nil => rfl
  | cons n0 rest ih =>
    by_cases h0 : n0.id = i
    · simp only [List.map_cons, findNode, hf n0, if_pos h0]
      rfl
    · simp only [List.map_cons, findNode, hf n0, if_neg h0]
      exact ih

lemma find_updateArrowData {f : NodeData → NodeData}
    (hf : ∀ d, (f d).type = d.type) (ds : List NodeData) :
    (updateArrowData f ds).find? (fun d => d.type = "@ocif/node/arrow") =
      (ds.find? (fun d => d.type = "@ocif/node/arrow")).map f := by
  induction ds with
  | nil => rfl
  | cons d rest ih =>
    by_cases h0 : d.type = "@ocif/node/arrow"
    · have hfd : decide ((f d).type = "@ocif/node/arrow") = true := by
        simp [hf d, h0]
      have hdd : decide (d.type = "@ocif/node/arrow") = true := by simp [h0]
      simp only [updateArrowData, if_pos h0, List.find?_cons, hfd, hdd]
      rfl
    · have hdd : decide (d.type = "@ocif/node/arrow") = false := by
        simpa using h0
      simp only [updateArrowData, if_neg h0, List.find?_cons, hdd]
      exact ih

/-- storing arrow coordinates rewrites the first arrow entry's
`start`/`end` and nothing else that `arrowEntry` observes. -/
lemma arrowEntry_setArrowCoords {n : ONode} {d0 : NodeData}
    (h : arrowEntry n = some d0) (s e : List ℚ) :
    arrowEntry { n with data := setArrowCoords n.data s e } =
      some { d0 with start := some s, «end» := some e } := by
  unfold arrowEntry at h ⊢
  match hd : n.data with
  | none => rw [hd] at h; simp at h
  | some ds =>
    rw [hd] at h
    simp only [Option.getD_some] at h
    show ((setArrowCoords (some ds) s e).getD []).find? _ = _
    simp only [setArrowCoords, Option.getD_some]
    rw [find_updateArrowData
      (f := fun a => { a with start := some s, «end» := some e })
      (fun d => rfl) ds, h]
    rfl

lemma findNode_updateNode_pos_ne (j i : String) (p : Option (List ℚ))
    (ns : List ONode) (hne : i ≠ j) :
    findNode (updateNode j (fun n => { n with position := p }) ns) i =
      findNode ns i :=
  findNode_updateNode_ne (f := fun n => { n with position := p })
    (fun n => rfl) ns hne

lemma findNode_updateNode_dataf_ne (j i : String)
    (g : Option (List NodeData) → Option (List NodeData))
    (ns : List ONode) (hne : i ≠ j) :
    findNode (updateNode j (fun n => { n with data := g n.data }) ns) i =
      findNode ns i :=
  findNode_updateNode_ne (f := fun n => { n with data := g n.data })
    (fun n => rfl) ns hne

lemma findNode_updateNode_pos_self (j : String) (p : Option (List ℚ))
    (ns : List ONode) :
    findNode (updateNode j (fun n => { n with position := p }) ns) j =
      (findNode ns j).map (fun n => { n with position := p }) :=
  findNode_updateNode_self (f := fun n => { n with position := p })
    (fun n => rfl) ns

lemma findNode_updateNode_dataf_self (j : String)
    (g : Option (List NodeData) → Option (List NodeData))
    (ns : List ONode) :
    findNode (updateNode j (fun n => { n with data := g n.data }) ns) j =
      (findNode ns j).map (fun n => { n with data := g n.data }) :=
  findNode_updateNode_self (f := fun n => { n with data := g n.data })
    (fun n => rfl) ns

/-- a relation whose edge entry names a different arrow id (or no usable
edge entry at all) cannot change what `findNode` returns for `i`. -/
lemma derive1Step_findNode_ne {ns : List ONode} {r : ORelation} {i : String}
    (h : ∀ a s t, relEdgeIds r = some (a, s, t) → a ≠ i) :
    findNode (derive1Step ns r) i = findNode ns i := by
  rcases hre : relEdgeIds r with _ | ⟨a, s, t⟩
  · simp only [derive1Step, hre]
  · have ha : i ≠ a := Ne.symm (h a s t hre)
    simp only [derive1Step, hre]
    rcases hfa : findNode ns a with _ | nA <;>
      rcases hfs : findNode ns s with _ | nS <;>
        rcases hft : findNode ns t with _ | nT <;>
          simp only [hfa, hfs, hft]
    rcases hps : nS.position with _ | sp <;>
      rcases hpt : nT.position with _ | tp <;>
        simp only [hps, hpt]
    have h1 : findNode (updateNode a (fun n => { n with
        position := some [(sp.getD 0 0 + tp.getD 0 0) / 2,
          (sp.getD 1 0 + tp.getD 1 0) / 2] }) ns) i = findNode ns i :=
      findNode_updateNode_pos_ne a i _ ns ha
    rcases hb1 : (findNode (updateNode a (fun n => { n with
        position := some [(sp.getD 0 0 + tp.getD 0 0) / 2,
          (sp.getD 1 0 + tp.getD 1 0) / 2] }) ns) s).bind
        (fun n => n.position) with _ | sp1 <;>
      rcases hb2 : (findNode (updateNode a (fun n => { n with
        position := some [(sp.getD 0 0 + tp.getD 0 0) / 2,
          (sp.getD 1 0 + tp.getD 1 0) / 2] }) ns) t).bind
        (fun n => n.position) with _ | tp1 <;>
      simp only [hb1, hb2]
    · exact h1
    · exact h1
    · exact h1
    · rw [findNode_updateNode_dataf_ne a i
        (fun d => setArrowCoords d [sp1.getD 0 0, sp1.getD 1 0]
          [tp1.getD 0 0, tp1.getD 1 0]) _ ha, h1]

lemma derive2Step_findNode_ne {ns : List ONode} {r : ORelation} {i : String}
    (h : ∀ a s t, relEdgeIds r = some (a, s, t) → a ≠ i) :
    findNode (derive2Step ns r) i = findNode ns i := by
  rcases hre : relEdgeIds r with _ | ⟨a, s, t⟩
  · simp only [derive2Step, hre]
  · have ha : i ≠ a := Ne.symm (h a s t hre)
    simp only [derive2Step, hre]
    rcases hfa : findNode ns a with _ | nA <;>
      rcases hfs : findNode ns s with _ | nS <;>
        rcases hft : findNode ns t with _ | nT <;>
          simp only [hfa, hfs, hft]
    rcases hps : nS.position with _ | sp <;>
      rcases hpt : nT.position with _ | tp <;>
        simp only [hps, hpt]
    exact findNode_updateNode_dataf_ne a i
      (fun d => setArrowCoords d [sp.getD 0 0, sp.getD 1 0]
        [tp.getD 0 0, tp.getD 1 0]) ns ha

lemma derivePass1_findNode_ne {rels : List ORelation} {i : String}
    (h : ∀ r' ∈ rels, ∀ a s t, relEdgeIds r' = some (a, s, t) → a ≠ i)
    (ns : List ONode) :
    findNode (derivePass1 ns rels) i = findNode ns i := by
  induction rels generalizing ns with
  | nil => rfl
  | cons r rels ih =>
    show findNode (derivePass1 (derive1Step ns r) rels) i = _
    rw [ih (fun r' hr' => h r' (List.mem_cons_of_mem r hr')),
      derive1Step_findNode_ne (h r (List.mem_cons_self r rels))]

lemma derivePass2_findNode_ne {rels : List ORelation} {i : String}
    (h : ∀ r' ∈ rels, ∀ a s t, relEdgeIds r' = some (a, s, t) → a ≠ i)
    (ns : List ONode) :
    findNode (derivePass2 ns rels) i = findNode ns i := by
  induction rels generalizing ns with
  | nil => rfl
  | cons r rels ih =>
    show findNode (derivePass2 (derive2Step ns r) rels) i = _
    rw [ih (fun r' hr' => h r' (List.mem_cons_of_mem r hr')),
      derive2Step_findNode_ne (h r (List.mem_cons_self r rels))]

/-- full evaluation of the first-pass processing of a qualifying
relation: the arrow node's position becomes the midpoint and both
endpoint positions are stored on the arrow entry. -/
lemma derive1Step_qualifying {ns : List ONode} {r : ORelation}
    {X A B : String} {nX nA nB : ONode} {pa pb : List ℚ}
    (hre : relEdgeIds r = some (X, A, B)) (hXA : X ≠ A) (hXB : X ≠ B)
    (hfX : findNode ns X = some nX) (hfA : findNode ns A = some nA)
    (hfB : findNode ns B = some nB)
    (hpA : nA.position = some pa) (hpB : nB.position = some pb) :
    derive1Step ns r =
      updateNode X (fun n => { n with
        data := setArrowCoords n.data [pa.getD 0 0, pa.getD 1 0]
          [pb.getD 0 0, pb.getD 1 0] })
        (updateNode X (fun n => { n with
          position := some [(pa.getD 0 0 + pb.getD 0 0) / 2,
            (pa.getD 1 0 + pb.getD 1 0) / 2] }) ns) := by
  have h1 : findNode (updateNode X (fun n => { n with
      position := some [(pa.getD 0 0 + pb.getD 0 0) / 2,
        (pa.getD 1 0 + pb.getD 1 0) / 2] }) ns) A = some nA := by
    rw [findNode_updateNode_pos_ne X A _ ns (Ne.symm hXA), hfA]
  have h2 : findNode (updateNode X (fun n => { n with
      position := some [(pa.getD 0 0 + pb.getD 0 0) / 2,
        (pa.getD 1 0 + pb.getD 1 0) / 2] }) ns) B = some nB := by
    rw [findNode_updateNode_pos_ne X B _ ns (Ne.symm hXB), hfB]
  simp only [derive1Step, hre, hfX, hfA, hfB, hpA, hpB, h1, h2,
    Option.some_bind]

/-- full evaluation of the second-pass processing of a qualifying
relation: only the stored endpoint coordinates are refreshed. -/
lemma derive2Step_qualifying {ns : List ONode} {r : ORelation}
    {X A B : String} {nX nA nB : ONode} {pa pb : List ℚ}
    (hre : relEdgeIds r = some (X, A, B))
    (hfX : findNode ns X = some nX) (hfA : findNode ns A = some nA)
    (hfB : findNode ns B = some nB)
    (hpA : nA.position = some pa) (hpB : nB.position = some pb) :
    derive2Step ns r =
      updateNode X (fun n => { n with
        data := setArrowCoords n.data [pa.getD 0 0, pa.getD 1 0]
          [pb.getD 0 0, pb.getD 1 0] }) ns := by
  simp only [derive2Step, hre, hfX, hfA, hfB, hpA, hpB]

lemma oscale_id (mX mY s : ℚ) (n : ONode) : (oscale mX mY s n).id = n.id := by
  unfold oscale
  split <;> rfl

lemma oscale_valid {n : ONode} {x y mX mY s : ℚ}
    (hp : n.position = some [x, y]) :
    oscale mX mY s n =
      { n with position := some [50 + (x - mX) * s, 50 + (y - mY) * s] } := by
  have hv : validNode n = true := by simp [validNode, hp]
  unfold oscale
  rw [if_pos hv, hp]
  rfl

end Ocif

namespace Ocif

lemma validNode_of_pos2 {n : ONode} {x y : ℚ} (hp : n.position = some [x, y]) :
    validNode n = true := by
  simp [validNode, hp]

lemma derivePass1_split (ns : List ONode) (pre post : List ORelation)
    (r : ORelation) :
    derivePass1 ns (pre ++ r :: post) =
      derivePass1 (derive1Step (derivePass1 ns pre) r) post := by
  unfold derivePass1
  rw [List.foldl_append, List.foldl_cons]

lemma derivePass2_split (ns : List ONode) (pre post : List ORelation)
    (r : ORelation) :
    derivePass2 ns (pre ++ r :: post) =
      derivePass2 (derive2Step (derivePass2 ns pre) r) post := by
  unfold derivePass2
  rw [List.foldl_append, List.foldl_cons]

end Ocif

/-- **C3 amended**: the arrow-consistency property holds for a qualifying
arrow relation provided its arrow node is referenced as arrow by no other
relation, is distinct from the start/end nodes, carries an
`@ocif/node/arrow` data entry, and the start/end nodes are not themselves
arrow nodes of any relation: after both derivation passes and the guarded
normalisation, the arrow node's stored start/end coordinates equal the
start/end nodes' final positions and the arrow node's own position is the
exact midpoint of those final positions.  (Without the uniqueness
hypotheses a later relation sharing the arrow node overwrites the
derivation — see the counterexample.) -/
theorem C3_arrow_derivation (nodes : List Ocif.ONode)
    (pre post : List Ocif.ORelation) (r : Ocif.ORelation)
    (X A B : String) (nX nA nB : Ocif.ONode) (pax pay pbx pby : ℚ)
    (d0 : Ocif.NodeData)
    (hre : Ocif.relEdgeIds r = some (X, A, B))
    (hXA : X ≠ A) (hXB : X ≠ B)
    (hfX : Ocif.findNode nodes X = some nX)
    (hfA : Ocif.findNode nodes A = some nA)
    (hfB : Ocif.findNode nodes B = some nB)
    (hpA : nA.position = some [pax, pay])
    (hpB : nB.position = some [pbx, pby])
    (harr : Ocif.arrowEntry nX = some d0)
    (hpre : ∀ r' ∈ pre ++ post, ∀ a s t,
      Ocif.relEdgeIds r' = some (a, s, t) → a ≠ X)
    (hAB : ∀ r' ∈ pre ++ r :: post, ∀ a s t,
      Ocif.relEdgeIds r' = some (a, s, t) → a ≠ A ∧ a ≠ B) :
    ∃ qax qay qbx qby : ℚ,
      (Ocif.findNode (Ocif.postProcess nodes (pre ++ r :: post)) A).bind
          (fun n => n.position) = some [qax, qay] ∧
      (Ocif.findNode (Ocif.postProcess nodes (pre ++ r :: post)) B).bind
          (fun n => n.position) = some [qbx, qby] ∧
      (Ocif.findNode (Ocif.postProcess nodes (pre ++ r :: post)) X).bind
          (fun n => n.position) =
        some [(qax + qbx) / 2, (qay + qby) / 2] ∧
      (Ocif.findNode (Ocif.postProcess nodes (pre ++ r :: post)) X).bind
          (fun n => Ocif.arrowEntry n) =
        some { d0 with start := some [qax, qay], «end» := some [qbx, qby] } := by
  have hAarr : ∀ r' ∈ pre ++ r :: post, ∀ a s t,
      Ocif.relEdgeIds r' = some (a, s, t) → a ≠ A :=
    fun r' hr' a s t h => (hAB r' hr' a s t h).1
  have hBarr : ∀ r' ∈ pre ++ r :: post, ∀ a s t,
      Ocif.relEdgeIds r' = some (a, s, t) → a ≠ B :=
    fun r' hr' a s t h => (hAB r' hr' a s t h).2
  have hXpre : ∀ r' ∈ pre, ∀ a s t,
      Ocif.relEdgeIds r' = some (a, s, t) → a ≠ X :=
    fun r' hr' => hpre r' (List.mem_append_left post hr')
  have hXpost : ∀ r' ∈ post, ∀ a s t,
      Ocif.relEdgeIds r' = some (a, s, t) → a ≠ X :=
    fun r' hr' => hpre r' (List.mem_append_right pre hr')
  have hApre : ∀ r' ∈ pre, ∀ a s t,
      Ocif.relEdgeIds r' = some (a, s, t) → a ≠ A :=
    fun r' hr' => hAarr r'
      (List.mem_append_left (r :: post) hr')
  have hBpre : ∀ r' ∈ pre, ∀ a s t,
      Ocif.relEdgeIds r' = some (a, s, t) → a ≠ B :=
    fun r' hr' => hBarr r'
      (List.mem_append_left (r :: post) hr')
  -- state after the pre-prefix of pass 1
  have hfX0 : Ocif.findNode (Ocif.derivePass1 nodes pre) X = some nX := by
    rw [Ocif.derivePass1_findNode_ne hXpre, hfX]
  have hfA0 : Ocif.findNode (Ocif.derivePass1 nodes pre) A = some nA := by
    rw [Ocif.derivePass1_findNode_ne hApre, hfA]
  have hfB0 : Ocif.findNode (Ocif.derivePass1 nodes pre) B = some nB := by
    rw [Ocif.derivePass1_findNode_ne hBpre, hfB]
  -- processing r in pass 1
  have hq := Ocif.derive1Step_qualifying hre hXA hXB hfX0 hfA0 hfB0 hpA hpB
  simp only [List.getD_cons_zero, List.getD_cons_succ] at hq
  -- the arrow node after pass 1
  have hfX1 : Ocif.findNode
      (Ocif.derivePass1 nodes (pre ++ r :: post)) X =
      some { nX with
        position := some [(pax + pbx) / 2, (pay + pby) / 2],
        data := Ocif.setArrowCoords nX.data [pax, pay] [pbx, pby] } := by
    rw [Ocif.derivePass1_split, Ocif.derivePass1_findNode_ne hXpost, hq,
      Ocif.findNode_updateNode_dataf_self X
        (fun d => Ocif.setArrowCoords d [pax, pay] [pbx, pby]) _,
      Ocif.findNode_updateNode_pos_self, hfX0]
    rfl
  have hfA1 : Ocif.findNode (Ocif.derivePass1 nodes (pre ++ r :: post)) A =
      some nA := by
    rw [Ocif.derivePass1_findNode_ne hAarr, hfA]
  have hfB1 : Ocif.findNode (Ocif.derivePass1 nodes (pre ++ r :: post)) B =
      some nB := by
    rw [Ocif.derivePass1_findNode_ne hBarr, hfB]
  have harr1 : Ocif.arrowEntry { nX with
      position := some [(pax + pbx) / 2, (pay + pby) / 2],
      data := Ocif.setArrowCoords nX.data [pax, pay] [pbx, pby] } =
      some { d0 with start := some [pax, pay], «end» := some [pbx, pby] } := by
    have : Ocif.arrowEntry { nX with
        position := some [(pax + pbx) / 2, (pay + pby) / 2] } = some d0 := harr
    exact Ocif.arrowEntry_setArrowCoords this [pax, pay] [pbx, pby]
  have hrA_only : ∀ a s t, Ocif.relEdgeIds r = some (a, s, t) → a ≠ A := by
    intro a s t h
    rw [hre] at h
    simp only [Option.some.injEq, Prod.mk.injEq] at h
    rw [← h.1]
    exact hXA
  have hrB_only : ∀ a s t, Ocif.relEdgeIds r = some (a, s, t) → a ≠ B := by
    intro a s t h
    rw [hre] at h
    simp only [Option.some.injEq, Prod.mk.injEq] at h
    rw [← h.1]
    exact hXB
  have hApost : ∀ r' ∈ post, ∀ a s t,
      Ocif.relEdgeIds r' = some (a, s, t) → a ≠ A :=
    fun r' hr' => hAarr r'
      (List.mem_append_right pre (List.mem_cons_of_mem r hr'))
  have hBpost : ∀ r' ∈ post, ∀ a s t,
      Ocif.relEdgeIds r' = some (a, s, t) → a ≠ B :=
    fun r' hr' => hBarr r'
      (List.mem_append_right pre (List.mem_cons_of_mem r hr'))
  simp only [Ocif.postProcess]
  rcases hv : (Ocif.derivePass1 nodes (pre ++ r :: post)).filter Ocif.validNode
    with _ | ⟨v, vs⟩ <;> simp only [hv]
  · exfalso
    have hmem : nA ∈ (Ocif.derivePass1 nodes (pre ++ r :: post)).filter
        Ocif.validNode :=
      List.mem_filter.mpr ⟨Ocif.findNode_mem_node hfA1, Ocif.validNode_of_pos2 hpA⟩
    rw [hv] at hmem
    exact List.not_mem_nil nA hmem
  · split_ifs with hdeg
    · -- degenerate bounding box: normalisation and pass 2 are skipped
      refine ⟨pax, pay, pbx, pby, ?_, ?_, ?_, ?_⟩
      · rw [hfA1]
        simp [hpA]
      · rw [hfB1]
        simp [hpB]
      · rw [hfX1]
        rfl
      · rw [hfX1]
        exact harr1
    · -- the layout is rescaled, then pass 2 refreshes the stored coords
      generalize hsval : min
        (900 / (Ocif.obbMaxX (v :: vs) - Ocif.obbMinX (v :: vs)))
        (min (700 / (Ocif.obbMaxY (v :: vs) - Ocif.obbMinY (v :: vs))) 1) = s
      generalize hmXval : Ocif.obbMinX (v :: vs) = mX
      generalize hmYval : Ocif.obbMinY (v :: vs) = mY
      have hfAM : Ocif.findNode
          ((Ocif.derivePass1 nodes (pre ++ r :: post)).map
            (Ocif.oscale mX mY s)) A =
          some { nA with position := some [50 + (pax - mX) * s,
            50 + (pay - mY) * s] } := by
        rw [Ocif.findNode_map (Ocif.oscale_id mX mY s), hfA1]
        rw [show Option.map (Ocif.oscale mX mY s) (some nA) =
          some (Ocif.oscale mX mY s nA) from rfl]
        rw [Ocif.oscale_valid hpA]
      have hfBM : Ocif.findNode
          ((Ocif.derivePass1 nodes (pre ++ r :: post)).map
            (Ocif.oscale mX mY s)) B =
          some { nB with position := some [50 + (pbx - mX) * s,
            50 + (pby - mY) * s] } := by
        rw [Ocif.findNode_map (Ocif.oscale_id mX mY s), hfB1]
        rw [show Option.map (Ocif.oscale mX mY s) (some nB) =
          some (Ocif.oscale mX mY s nB) from rfl]
        rw [Ocif.oscale_valid hpB]
      have hfXM : Ocif.findNode
          ((Ocif.derivePass1 nodes (pre ++ r :: post)).map
            (Ocif.oscale mX mY s)) X =
          some { nX with
            position := some [50 + ((pax + pbx) / 2 - mX) * s,
              50 + ((pay + pby) / 2 - mY) * s],
            data := Ocif.setArrowCoords nX.data [pax, pay] [pbx, pby] } := by
        rw [Ocif.findNode_map (Ocif.oscale_id mX mY s), hfX1]
        rw [show Option.map (Ocif.oscale mX mY s) (some { nX with
          position := some [(pax + pbx) / 2, (pay + pby) / 2],
          data := Ocif.setArrowCoords nX.data [pax, pay] [pbx, pby] }) =
          some (Ocif.oscale mX mY s { nX with
          position := some [(pax + pbx) / 2, (pay + pby) / 2],
          data := Ocif.setArrowCoords nX.data [pax, pay] [pbx, pby] }) from rfl]
        rw [Ocif.oscale_valid rfl]
      -- pass 2: the pre-prefix leaves A, B, X untouched
      have h2A : Ocif.findNode (Ocif.derivePass2
          ((Ocif.derivePass1 nodes (pre ++ r :: post)).map
            (Ocif.oscale mX mY s)) pre) A =
          some { nA with position := some [50 + (pax - mX) * s,
            50 + (pay - mY) * s] } := by
        rw [Ocif.derivePass2_findNode_ne hApre, hfAM]
      have h2B : Ocif.findNode (Ocif.derivePass2
          ((Ocif.derivePass1 nodes (pre ++ r :: post)).map
            (Ocif.oscale mX mY s)) pre) B =
          some { nB with position := some [50 + (pbx - mX) * s,
            50 + (pby - mY) * s] } := by
        rw [Ocif.derivePass2_findNode_ne hBpre, hfBM]
      have h2X : Ocif.findNode (Ocif.derivePass2
          ((Ocif.derivePass1 nodes (pre ++ r :: post)).map
            (Ocif.oscale mX mY s)) pre) X =
          some { nX with
            position := some [50 + ((pax + pbx) / 2 - mX) * s,
              50 + ((pay + pby) / 2 - mY) * s],
            data := Ocif.setArrowCoords nX.data [pax, pay] [pbx, pby] } := by
        rw [Ocif.derivePass2_findNode_ne hXpre, hfXM]
      have hq2 := Ocif.derive2Step_qualifying hre h2X h2A h2B rfl rfl
      simp only [List.getD_cons_zero, List.getD_cons_succ] at hq2
      rw [Ocif.derivePass2_split]
      have hfinalA : Ocif.findNode (Ocif.derivePass2
          (Ocif.derive2Step (Ocif.derivePass2
            ((Ocif.derivePass1 nodes (pre ++ r :: post)).map
              (Ocif.oscale mX mY s)) pre) r) post) A =
          some { nA with position := some [50 + (pax - mX) * s,
            50 + (pay - mY) * s] } := by
        rw [Ocif.derivePass2_findNode_ne hApost,
          Ocif.derive2Step_findNode_ne hrA_only, h2A]
      have hfinalB : Ocif.findNode (Ocif.derivePass2
          (Ocif.derive2Step (Ocif.derivePass2
            ((Ocif.derivePass1 nodes (pre ++ r :: post)).map
              (Ocif.oscale mX mY s)) pre) r) post) B =
          some { nB with position := some [50 + (pbx - mX) * s,
            50 + (pby - mY) * s] } := by
        rw [Ocif.derivePass2_findNode_ne hBpost,
          Ocif.derive2Step_findNode_ne hrB_only, h2B]
      have hfinalX : Ocif.findNode (Ocif.derivePass2
          (Ocif.derive2Step (Ocif.derivePass2
            ((Ocif.derivePass1 nodes (pre ++ r :: post)).map
              (Ocif.oscale mX mY s)) pre) r) post) X =
          some { nX with
            position := some [50 + ((pax + pbx) / 2 - mX) * s,
              50 + ((pay + pby) / 2 - mY) * s],
            data := Ocif.setArrowCoords
              (Ocif.setArrowCoords nX.data [pax, pay] [pbx, pby])
              [50 + (pax - mX) * s, 50 + (pay - mY) * s]
              [50 + (pbx - mX) * s, 50 + (pby - mY) * s] } := by
        rw [Ocif.derivePass2_findNode_ne hXpost, hq2,
          Ocif.findNode_updateNode_dataf_self X
            (fun d => Ocif.setArrowCoords d
              [50 + (pax - mX) * s, 50 + (pay - mY) * s]
              [50 + (pbx - mX) * s, 50 + (pby - mY) * s]) _, h2X]
        rfl
      refine ⟨50 + (pax - mX) * s, 50 + (pay - mY) * s,
        50 + (pbx - mX) * s, 50 + (pby - mY) * s, ?_, ?_, ?_, ?_⟩
      · rw [hfinalA]
        rfl
      · rw [hfinalB]
        rfl
      · rw [hfinalX]
        have ex : 50 + ((pax + pbx) / 2 - mX) * s =
            ((50 + (pax - mX) * s) + (50 + (pbx - mX) * s)) / 2 := by ring
        have ey : 50 + ((pay + pby) / 2 - mY) * s =
            ((50 + (pay - mY) * s) + (50 + (pby - mY) * s)) / 2 := by ring
        show some [50 + ((pax + pbx) / 2 - mX) * s,
          50 + ((pay + pby) / 2 - mY) * s] = _
        rw [ex, ey]
      · rw [hfinalX]
        show Ocif.arrowEntry _ = _
        have hstep : Ocif.arrowEntry { nX with
            position := some [50 + ((pax + pbx) / 2 - mX) * s,
              50 + ((pay + pby) / 2 - mY) * s],
            data := Ocif.setArrowCoords nX.data [pax, pay] [pbx, pby] } =
            some { d0 with start := some [pax, pay], «end» := some [pbx, pby] } :=
          harr1
        exact Ocif.arrowEntry_setArrowCoords hstep _ _


set_option maxHeartbeats 1000000 in
/-- **C3 counterexample** (to the spec's unconditional claim): two edge
relations share the same arrow node `X`; after layout post-processing `X`
holds the midpoint and endpoint coordinates of the *second* relation
(`C`–`D`), so for the first relation (`A`–`B`) the arrow position is not
the midpoint of its endpoints and the stored `start` is not `A`'s
position. -/
theorem C3_counterexample :
    let ns : List Ocif.ONode :=
      [⟨"A", some [0, 0], none, none, []⟩,
       ⟨"B", some [2, 0], none, none, []⟩,
       ⟨"C", some [4, 0], none, none, []⟩,
       ⟨"D", some [6, 0], none, none, []⟩,
       ⟨"X", none, none, some [⟨"@ocif/node/arrow", none, none, []⟩], []⟩]
    let rs : List Ocif.ORelation :=
      [⟨"r1", none, none,
        some [⟨"@ocif/rel/edge", some "X", some "A", some "B", []⟩], []⟩,
       ⟨"r2", none, none,
        some [⟨"@ocif/rel/edge", some "X", some "C", some "D", []⟩], []⟩]
    let final := Ocif.postProcess ns rs
    -- the first relation qualifies as an edge on arrow X from A to B
    Ocif.relEdgeIds rs[0] = some ("X", "A", "B") ∧
    -- final endpoint and arrow positions
    (Ocif.findNode final "A").map Ocif.ONode.position = some (some [0, 0]) ∧
    (Ocif.findNode final "B").map Ocif.ONode.position = some (some [2, 0]) ∧
    (Ocif.findNode final "X").map Ocif.ONode.position = some (some [5, 0]) ∧
    -- the arrow does not sit at the midpoint of A and B
    (5 : ℚ) ≠ ((0 : ℚ) + 2) / 2 ∧
    -- the stored start coordinate is not A's position
    ((Ocif.findNode final "X").bind
        (fun n => (Ocif.arrowEntry n).bind (fun d => d.start))) = some [4, 0] ∧
    (4 : ℚ) ≠ (0 : ℚ) := by
  intro ns rs final
  have hfinal : final =
      [⟨"A", some [0, 0], none, none, []⟩,
       ⟨"B", some [2, 0], none, none, []⟩,
       ⟨"C", some [4, 0], none, none, []⟩,
       ⟨"D", some [6, 0], none, none, []⟩,
       ⟨"X", some [5, 0], none,
        some [⟨"@ocif/node/arrow", some [4, 0], some [6, 0], []⟩], []⟩] := by
    show Ocif.postProcess ns rs = _
    norm_num [Ocif.postProcess, Ocif.derivePass1, Ocif.derive1Step,
      Ocif.relEdgeIds, Ocif.findEdge, Ocif.findNode, Ocif.updateNode,
      Ocif.setArrowCoords, Ocif.updateArrowData, Ocif.arrowEntry,
      Ocif.validNode, Ocif.obbMinX, Ocif.obbMinY, Ocif.obbMaxX, Ocif.obbMaxY,
      Ocif.oscale, Ocif.derivePass2, Ocif.derive2Step, Ocif.isArrow,
      List.foldl, List.filter, List.find?, Option.getD, min_def, max_def]
    simp [Ocif.findNode, Ocif.updateNode, Ocif.setArrowCoords,
      Ocif.updateArrowData, Ocif.arrowEntry, Ocif.isArrow, List.find?]
    norm_num [Ocif.validNode, Ocif.obbMinX, Ocif.obbMinY, Ocif.obbMaxX,
      Ocif.obbMaxY, Ocif.oscale, Ocif.derivePass2, Ocif.derive2Step,
      List.foldl, List.filter, min_def, max_def]
  refine ⟨?_, ?_, ?_, ?_, by norm_num, ?_, by norm_num⟩ <;>
    simp [rs, hfinal, Ocif.relEdgeIds, Ocif.findEdge, Ocif.findNode,
      Ocif.arrowEntry, List.find?]

/-- Witness for the amended C3 theorem: a single qualifying edge relation
on three concrete nodes satisfies all the side conditions, and the
derivation produces the midpoint and stored endpoint coordinates. -/
theorem C3_arrow_derivation_witness :
    ∃ qax qay qbx qby : ℚ,
      (Ocif.findNode
          (Ocif.postProcess
            [⟨"A", some [0, 0], none, none, []⟩,
             ⟨"B", some [10, 20], none, none, []⟩,
             ⟨"X", none, none, some [⟨"@ocif/node/arrow", none, none, []⟩],
              []⟩]
            [⟨"r1", none, none,
              some [⟨"@ocif/rel/edge", some "X", some "A", some "B", []⟩],
              []⟩]) "A").bind (fun n => n.position) = some [qax, qay] ∧
      (Ocif.findNode
          (Ocif.postProcess
            [⟨"A", some [0, 0], none, none, []⟩,
             ⟨"B", some [10, 20], none, none, []⟩,
             ⟨"X", none, none, some [⟨"@ocif/node/arrow", none, none, []⟩],
              []⟩]
            [⟨"r1", none, none,
              some [⟨"@ocif/rel/edge", some "X", some "A", some "B", []⟩],
              []⟩]) "B").bind (fun n => n.position) = some [qbx, qby] ∧
      (Ocif.findNode
          (Ocif.postProcess
            [⟨"A", some [0, 0], none, none, []⟩,
             ⟨"B", some [10, 20], none, none, []⟩,
             ⟨"X", none, none, some [⟨"@ocif/node/arrow", none, none, []⟩],
              []⟩]
            [⟨"r1", none, none,
              some [⟨"@ocif/rel/edge", some "X", some "A", some "B", []⟩],
              []⟩]) "X").bind (fun n => n.position) =
        some [(qax + qbx) / 2, (qay + qby) / 2] ∧
      (Ocif.findNode
          (Ocif.postProcess
            [⟨"A", some [0, 0], none, none, []⟩,
             ⟨"B", some [10, 20], none, none, []⟩,
             ⟨"X", none, none, some [⟨"@ocif/node/arrow", none, none, []⟩],
              []⟩]
            [⟨"r1", none, none,
              some [⟨"@ocif/rel/edge", some "X", some "A", some "B", []⟩],
              []⟩]) "X").bind (fun n => Ocif.arrowEntry n) =
        some { (⟨"@ocif/node/arrow", none, none, []⟩ : Ocif.NodeData) with
                 start := some [qax, qay], «end» := some [qbx, qby] } := by
  exact C3_arrow_derivation
    [⟨"A", some [0, 0], none, none, []⟩,
     ⟨"B", some [10, 20], none, none, []⟩,
     ⟨"X", none, none, some [⟨"@ocif/node/arrow", none, none, []⟩], []⟩]
    [] []
    ⟨"r1", none, none,
      some [⟨"@ocif/rel/edge", some "X", some "A", some "B", []⟩], []⟩
    "X" "A" "B"
    ⟨"X", none, none, some [⟨"@ocif/node/arrow", none, none, []⟩], []⟩
    ⟨"A", some [0, 0], none, none, []⟩
    ⟨"B", some [10, 20], none, none, []⟩
    0 0 10 20
    ⟨"@ocif/node/arrow", none, none, []⟩
    (by simp [Ocif.relEdgeIds, Ocif.findEdge, List.find?])
    (by simp) (by simp)
    (by simp [Ocif.findNode, List.find?])
    (by simp [Ocif.findNode, List.find?])
    (by simp [Ocif.findNode, List.find?])
    rfl rfl
    (by simp [Ocif.arrowEntry, List.find?])
    (by intro r' hr'; simp at hr')
    (by
      intro r' hr' a s t h
      simp only [List.nil_append, List.mem_singleton] at hr'
      subst hr'
      simp [Ocif.relEdgeIds, Ocif.findEdge, List.find?] at h
      obtain ⟨ha, -, -⟩ := h
      subst ha
      exact ⟨by simp, by simp⟩)
